import Mathlib

/-!
# TCHelper: resource registry and train audio engine

A shallow embedding of `src/main.cpp`.  The host game's global tables are
explicit state: the model-info pointer array is a finite list of optional
records, the handling registry a list of names, and the audio output keeps
the sequence of calls it received.  The pedal floats are only compared and
are kept as rationals; the door progress is computed with, and is a binary32
value with round-to-nearest addition.
-/

namespace TCHelper

/-! ## Data model -/

/-- Catalog record of `MyVehicles.ini` (`struct VehicleDef`). -/
structure VehicleDef where
  modelName : String
  handlingId : String
  carGroup : String
  flags : Nat
  deriving DecidableEq, Repr

/-- Catalog record of `MyPeds.ini` (`struct PedDef`). -/
structure PedDef where
  modelName : String
  pedType : String
  voice : String
  flags : Nat
  deriving DecidableEq, Repr

/-- Which constructor built a model-info object: `new CModelInfo()`,
`new CVehicleModelInfo()` or `new CPedModelInfo()`. -/
inductive ModelKind where
  | generic
  | vehicle
  | ped
  deriving DecidableEq, Repr

/-- A host model-info object.  `handlingId` and `pedType` are `none` while the
field still has the value its constructor gave it. -/
structure ModelInfo where
  kind : ModelKind
  name : String
  handlingId : Option Int
  pedType : Option Int
  deriving DecidableEq, Repr

/-- The host model-info pointer array: entry `i` is `none` for a null pointer.
Indices past the end of the list are null. -/
abbrev ModelTable := List (Option ModelInfo)

/-- Host state touched by the registry. -/
structure Host where
  models : ModelTable
  handling : List String
  loadedFiles : List String
  streamingRemoved : List Nat
  deriving DecidableEq, Repr

/-- Behaviour of the host that the registry cannot observe in advance:
whether `new C...ModelInfo()` succeeds and what `CPedType::GetPedTypeFromName`
answers. -/
structure HostCfg where
  allocOk : Bool
  pedTypeFromName : String → Int

/-- The constant `MAX_MODELS` of `FindFreeModelIndex` (also the literal bound
of the loop in `ClearAllCustomModels`). -/
def MAX_MODELS : Nat := 4000

/-! ## Host resource table -/

/-- Host call `CModelInfo::GetModelInfo(i)`. -/
def GetModelInfo : ModelTable → Nat → Option ModelInfo
  | [], _ => none
  | x :: _, 0 => x
  | _ :: xs, i + 1 => GetModelInfo xs i

/-- Host call `CModelInfo::AddModel(i, mi)`: store `mi` at index `i`. -/
def AddModel : ModelTable → Nat → ModelInfo → ModelTable
  | [], 0, m => [some m]
  | [], i + 1, m => none :: AddModel [] i m
  | _ :: xs, 0, m => some m :: xs
  | x :: xs, i + 1, m => x :: AddModel xs i m

/-- Host call `CModelInfo::RemoveModel(i)`: null the entry at index `i`. -/
def RemoveModel : ModelTable → Nat → ModelTable
  | [], _ => []
  | _ :: xs, 0 => none :: xs
  | x :: xs, i + 1 => x :: RemoveModel xs i

/-- Case-insensitive equality of two names, as `_stricmp(a, b) == 0`. -/
def stricmpEq (a b : String) : Bool :=
  a.data.map Char.toLower == b.data.map Char.toLower

/-- Search of `GetModelIndex`: first index, counted from `base`, whose
entry carries a name equal to `name` up to case. -/
def GetModelIndexFrom (name : String) : ModelTable → Nat → Int
  | [], _ => -1
  | none :: xs, base => GetModelIndexFrom name xs (base + 1)
  | some m :: xs, base =>
      if stricmpEq m.name name then (base : Int) else GetModelIndexFrom name xs (base + 1)

/-- Modelled from the spec: the host lookup `CModelInfo::GetModelIndex(name)`
(`findIndexByName`, "case-insensitive name search over currently registered
slots"); it answers the first matching index, or -1. -/
def GetModelIndex (t : ModelTable) (name : String) : Int :=
  GetModelIndexFrom name t 0

/-- Loop of `FindFreeModelIndex` from index `i` with `fuel` iterations left. -/
def FindFreeModelIndexLoop (t : ModelTable) : Nat → Nat → Int
  | _, 0 => -1
  | i, fuel + 1 =>
      if GetModelInfo t i = none then (i : Int) else FindFreeModelIndexLoop t (i + 1) fuel

/-- Function `FindFreeModelIndex()` with the bound `MAX_MODELS` as a parameter. -/
def FindFreeModelIndexBelow (maxModels : Nat) (t : ModelTable) : Int :=
  FindFreeModelIndexLoop t 0 maxModels

/-- Function `FindFreeModelIndex()`. -/
def FindFreeModelIndex (t : ModelTable) : Int :=
  FindFreeModelIndexBelow MAX_MODELS t

/-! ## Asset loading and the handling registry -/

/-- Search of `FindHandlingId`: first position, counted from `base`, of `name`. -/
def FindHandlingIdFrom (name : String) : List String → Nat → Int
  | [], _ => -1
  | x :: xs, base => if x = name then (base : Int) else FindHandlingIdFrom name xs (base + 1)

/-- Host call `CHandlingDataMgr::FindHandlingId(name)`: the id of a handling
line, or -1 (the spec's "secondary registry"). -/
def FindHandlingId (hs : List String) (name : String) : Int :=
  FindHandlingIdFrom name hs 0

/-- Host call `CHandlingDataMgr::AddHandlingLine(name)`: creates the line. -/
def AddHandlingLine (hs : List String) (name : String) : List String :=
  hs ++ [name]

/-- Function `LoadModelFilesByName(modelName)`: nothing to do when the name is
already in the model table, otherwise hand `<name>.dff` and `<name>.txd` to the
file loader.  The `catch` branch only changes the answer, which both callers
discard; `loadedFiles` records the requests of a loader that does not throw. -/
def LoadModelFilesByName (h : Host) (modelName : String) : Bool × Host :=
  if GetModelIndex h.models modelName ≥ 0 then (true, h)
  else (true, { h with loadedFiles := h.loadedFiles ++ [modelName ++ ".dff", modelName ++ ".txd"] })

/-! ## Registration -/

/-- Function `RegisterVehicleModel(v)`, the slot-space bound of `FindFreeModelIndex`
being the parameter `maxModels` (`MAX_MODELS` in the source). -/
def RegisterVehicleModel (maxModels : Nat) (cfg : HostCfg) (h : Host) (v : VehicleDef) :
    Int × Host :=
  let idx := FindFreeModelIndexBelow maxModels h.models
  if idx < 0 then (-1, h)
  else
    let h1 := (LoadModelFilesByName h v.modelName).2
    if cfg.allocOk = false then
      (idx, { h1 with models := AddModel h1.models idx.toNat ⟨.generic, v.modelName, none, none⟩ })
    else if v.handlingId = "" then
      (idx, { h1 with models := AddModel h1.models idx.toNat ⟨.vehicle, v.modelName, none, none⟩ })
    else
      let hid := FindHandlingId h1.handling v.handlingId
      if hid ≥ 0 then
        (idx, { h1 with
          models := AddModel h1.models idx.toNat ⟨.vehicle, v.modelName, some hid, none⟩ })
      else
        let hs := AddHandlingLine h1.handling v.handlingId
        (idx, { h1 with
          models := AddModel h1.models idx.toNat
            ⟨.vehicle, v.modelName, some (FindHandlingId hs v.handlingId), none⟩
          handling := hs })

/-- Function `RegisterPedModel(p)`, the slot-space bound of `FindFreeModelIndex` being
the parameter `maxModels` (`MAX_MODELS` in the source). -/
def RegisterPedModel (maxModels : Nat) (cfg : HostCfg) (h : Host) (p : PedDef) : Int × Host :=
  let idx := FindFreeModelIndexBelow maxModels h.models
  if idx < 0 then (-1, h)
  else
    let h1 := (LoadModelFilesByName h p.modelName).2
    if cfg.allocOk = false then
      (idx, { h1 with models := AddModel h1.models idx.toNat ⟨.generic, p.modelName, none, none⟩ })
    else if p.pedType = "" then
      (idx, { h1 with models := AddModel h1.models idx.toNat ⟨.ped, p.modelName, none, none⟩ })
    else
      (idx, { h1 with
        models := AddModel h1.models idx.toNat
          ⟨.ped, p.modelName, none, some (cfg.pedTypeFromName p.pedType)⟩ })

/-! ## Shutdown cleanup -/

/-- Substring test `s.find(pat) != npos` on character lists. -/
def containsSub (pat : List Char) : List Char → Bool
  | [] => pat.isEmpty
  | c :: cs => pat.isPrefixOf (c :: cs) || containsSub pat cs

/-- The test of `ClearAllCustomModels` on a model name:
`sname.rfind("my_", 0) == 0 || sname.find("infernus") != npos`. -/
def isCustomName (sname : String) : Bool :=
  "my_".data.isPrefixOf sname.data || containsSub "infernus".data sname.data

/-- Loop of `ClearAllCustomModels` from index `i` with `fuel` iterations left. -/
def ClearAllCustomModelsLoop : Host → Nat → Nat → Host
  | h, _, 0 => h
  | h, i, fuel + 1 =>
      match GetModelInfo h.models i with
      | none => ClearAllCustomModelsLoop h (i + 1) fuel
      | some mi =>
          if isCustomName mi.name then
            ClearAllCustomModelsLoop
              { h with streamingRemoved := h.streamingRemoved ++ [i]
                       models := RemoveModel h.models i } (i + 1) fuel
          else ClearAllCustomModelsLoop h (i + 1) fuel

/-- Function `ClearAllCustomModels()` with the loop bound (4000 in the source) as a
parameter. -/
def ClearAllCustomModelsBelow (maxModels : Nat) (h : Host) : Host :=
  ClearAllCustomModelsLoop h 0 maxModels

/-- Function `ClearAllCustomModels()`. -/
def ClearAllCustomModels (h : Host) : Host :=
  ClearAllCustomModelsBelow MAX_MODELS h

/-- Function `ShutdownPlugin()` on the host state (the worker flag is not modelled). -/
def ShutdownPlugin (h : Host) : Host :=
  ClearAllCustomModels h

/-- The two registration loops of `InitPlugin`, over parsed catalogs. -/
def InitPluginRegister (maxModels : Nat) (cfg : HostCfg) (g_vehicles : List VehicleDef)
    (g_peds : List PedDef) (h : Host) : Host :=
  let h1 := g_vehicles.foldl (fun acc v => (RegisterVehicleModel maxModels cfg acc v).2) h
  g_peds.foldl (fun acc p => (RegisterPedModel maxModels cfg acc p).2) h1

/-! ## Group resolver -/

/-- The member loop `for (auto &mn : models)` of `RegisterCarGroups`: the ids
added to the new `CarGroup`, in order, and the host state afterwards. -/
def CarGroupMembers (maxModels : Nat) (cfg : HostCfg) (g_vehicles : List VehicleDef) :
    Host → List String → List Int × Host
  | h, [] => ([], h)
  | h, mn :: rest =>
      let id := GetModelIndex h.models mn
      let h1 :=
        if id < 0 then
          match g_vehicles.find? (fun vd => stricmpEq vd.modelName mn) with
          | some vd => (RegisterVehicleModel maxModels cfg h vd).2
          | none => h
        else h
      let id1 := if id < 0 then GetModelIndex h1.models mn else id
      let r := CarGroupMembers maxModels cfg g_vehicles h1 rest
      (if id1 ≥ 0 then id1 :: r.1 else r.1, r.2)

/-- The member loop `for (auto &pn : peds)` of `RegisterPedGroups`. -/
def PedGroupMembers (maxModels : Nat) (cfg : HostCfg) (g_peds : List PedDef) :
    Host → List String → List Int × Host
  | h, [] => ([], h)
  | h, pn :: rest =>
      let id := GetModelIndex h.models pn
      let h1 :=
        if id < 0 then
          match g_peds.find? (fun pd => stricmpEq pd.modelName pn) with
          | some pd => (RegisterPedModel maxModels cfg h pd).2
          | none => h
        else h
      let id1 := if id < 0 then GetModelIndex h1.models pn else id
      let r := PedGroupMembers maxModels cfg g_peds h1 rest
      (if id1 ≥ 0 then id1 :: r.1 else r.1, r.2)

/-! ## Audio bank cache -/

/-- One sound bank (`struct TrainSoundSet`); `namedSounds` maps an event name
to the path of its asset. -/
structure TrainSoundSet where
  basePath : String
  namedSounds : List (String × String)
  deriving DecidableEq, Repr

/-- The part of a `CVehicle` the plugin reads. -/
structure CVehicle where
  m_nModelIndex : Nat
  m_nEngineState : Int
  m_fBrakePedal : ℚ
  m_fGasPedal : ℚ
  m_nTrainDoorOpenLeft : Bool
  m_nTrainDoorOpenRight : Bool
  deriving DecidableEq

/-- The globals `g_trainSounds` and `g_registeredSamples`, and the calls the
host audio output has received so far (`cDMAudio::LoadSample` paths and
`cDMAudio::PlaySample` handles, oldest first). -/
structure AudioState where
  trainSounds : List (String × TrainSoundSet)
  registeredSamples : List (Int × Int)
  loadCalls : List String
  playCalls : List Int
  deriving DecidableEq, Repr

/-- Lookup `m.find(k)` of a `std::map`, kept as an association list. -/
def mapFind {κ β : Type} [DecidableEq κ] (k : κ) : List (κ × β) → Option β
  | [] => none
  | (k1, v) :: rest => if k1 = k then some v else mapFind k rest

/-- Access `m[k]` of a `std::map`: the value at `k`, which is first inserted with the
default `dflt` when the key is missing. -/
def mapAt {κ β : Type} [DecidableEq κ] (dflt : β) (k : κ) (m : List (κ × β)) :
    β × List (κ × β) :=
  match mapFind k m with
  | some v => (v, m)
  | none => (dflt, (k, dflt) :: m)

/-- Function `RegisterWavAsSample(soundName, path)`; `hash` is `std::hash<std::string>`
cut to `int`, `loadSample` the answer of `cDMAudio::LoadSample`. -/
def RegisterWavAsSample (hash : String → Int) (loadSample : String → Int) (a : AudioState)
    (soundName path : String) : AudioState :=
  if (mapFind (hash soundName) a.registeredSamples).isNone then
    let sampleId := loadSample path
    { a with loadCalls := a.loadCalls ++ [path]
             registeredSamples := (hash soundName, sampleId) :: a.registeredSamples }
  else a

/-- Function `GetVehicleModelName(veh)`. -/
def GetVehicleModelName (t : ModelTable) (veh : Option CVehicle) : String :=
  match veh with
  | none => ""
  | some v =>
      match GetModelInfo t v.m_nModelIndex with
      | none => ""
      | some mi => mi.name

/-- The local `soundBank` of `PlayTrainSound` when line 417 is reached. -/
def soundBankKey (banks : List (String × TrainSoundSet)) (modelName : String) : String :=
  if modelName ≠ "" ∧ (mapFind modelName banks).isSome then modelName else "default"

/-- Lines 422-428 of `PlayTrainSound`, reached once the event's `path` has been
found in the bank: register the sample, read its id back, play it if valid. -/
def playResolved (hash : String → Int) (loadSample : String → Int) (a : AudioState)
    (soundName path : String) : AudioState :=
  let a1 := RegisterWavAsSample hash loadSample a soundName path
  let s := mapAt (0 : Int) (hash soundName) a1.registeredSamples
  let a2 := { a1 with registeredSamples := s.2 }
  if s.1 ≥ 0 then { a2 with playCalls := a2.playCalls ++ [s.1] } else a2

/-- Function `PlayTrainSound(veh, soundName)`. -/
def PlayTrainSound (hash : String → Int) (loadSample : String → Int) (t : ModelTable)
    (a : AudioState) (veh : Option CVehicle) (soundName : String) : AudioState :=
  match veh with
  | none => a
  | some _ =>
      let modelName := GetVehicleModelName t veh
      let soundBank := soundBankKey a.trainSounds modelName
      if (mapFind soundBank a.trainSounds).isNone then a
      else
        let r := mapAt (⟨"", []⟩ : TrainSoundSet) soundBank a.trainSounds
        let a0 := { a with trainSounds := r.2 }
        match mapFind soundName r.1.namedSounds with
        | none => a0
        | some path => playResolved hash loadSample a0 soundName path

/-! ## Entity audio engine -/

/-- Stored channel values of one entity (`struct TrainSoundState`); the
default-constructed value is all `false`. -/
structure TrainSoundState where
  engineOn : Bool
  braking : Bool
  accelerating : Bool
  doorsOpen : Bool
  deriving DecidableEq, Repr

/-- The value `stateMap[vehKey]` creates for an entity seen for the first time. -/
def TrainSoundState.init : TrainSoundState := ⟨false, false, false, false⟩

/-- The four booleans `UpdateTrainSounds` samples from the vehicle. -/
def sampleChannels (v : CVehicle) : TrainSoundState :=
  { engineOn := decide (v.m_nEngineState = 1)
    braking := decide (v.m_fBrakePedal > 1 / 10)
    accelerating := decide (v.m_fGasPedal > 1 / 10)
    doorsOpen := v.m_nTrainDoorOpenLeft || v.m_nTrainDoorOpenRight }

/-- Function `UpdateTrainSounds(veh)` on the entity's stored state, with the effect of
each `PlayTrainSound(veh, name)` call given by `play`. -/
def UpdateTrainSoundsWith {α : Type} (play : α → String → α) (a : α) (state : TrainSoundState)
    (veh : Option CVehicle) : α × TrainSoundState :=
  match veh with
  | none => (a, state)
  | some v =>
      let s := sampleChannels v
      let a1 := if s.engineOn ≠ state.engineOn then
        (if s.engineOn then play a "engine_start" else play a "engine_stop") else a
      let a2 := if s.braking ≠ state.braking then
        (if s.braking then play a1 "brake_start" else play a1 "brake_release") else a1
      let a3 := if s.accelerating ≠ state.accelerating then
        (if s.accelerating then play a2 "accelerate" else play a2 "engine_idle") else a2
      let a4 := if s.doorsOpen ≠ state.doorsOpen then
        (if s.doorsOpen then play a3 "door_open" else play a3 "door_close") else a3
      (a4, s)

/-- Function `UpdateTrainSounds(veh)`. -/
def UpdateTrainSounds (hash : String → Int) (loadSample : String → Int) (t : ModelTable)
    (a : AudioState) (state : TrainSoundState) (veh : Option CVehicle) :
    AudioState × TrainSoundState :=
  UpdateTrainSoundsWith (fun acc name => PlayTrainSound hash loadSample t acc veh name) a state veh

/-- The names passed to `PlayTrainSound` by one `UpdateTrainSounds(veh)` call,
in call order, and the stored state afterwards. -/
def tickRequests (state : TrainSoundState) (veh : Option CVehicle) :
    List String × TrainSoundState :=
  UpdateTrainSoundsWith (fun log name => log ++ [name]) [] state veh

/-- Successive `UpdateTrainSounds` calls on the snapshots `vs` of one
entity: all requested names in call order, and the final stored state. -/
def runTicks : TrainSoundState → List CVehicle → List String × TrainSoundState
  | state, [] => ([], state)
  | state, v :: vs =>
      let r := tickRequests state (some v)
      let r1 := runTicks r.2 vs
      (r.1 ++ r1.1, r1.2)

/-- The four channels of the engine. -/
inductive Channel where
  | engine
  | braking
  | accelerating
  | doors
  deriving DecidableEq, Repr

/-- Name played on a false→true edge of the channel. -/
def Channel.onAction : Channel → String
  | .engine => "engine_start"
  | .braking => "brake_start"
  | .accelerating => "accelerate"
  | .doors => "door_open"

/-- Name played on a true→false edge of the channel. -/
def Channel.offAction : Channel → String
  | .engine => "engine_stop"
  | .braking => "brake_release"
  | .accelerating => "engine_idle"
  | .doors => "door_close"

/-- Stored or sampled value of a channel. -/
def Channel.value : Channel → TrainSoundState → Bool
  | .engine, s => s.engineOn
  | .braking, s => s.braking
  | .accelerating, s => s.accelerating
  | .doors, s => s.doorsOpen

/-- Whether a requested name belongs to the channel. -/
def Channel.owns (c : Channel) (name : String) : Bool :=
  name = c.onAction || name = c.offAction

/-- One action per position of `samples` that differs from its predecessor
(`prev` for the first): the on-action for a rise, the off-action for a fall. -/
def edgeActions (c : Channel) : Bool → List Bool → List String
  | _, [] => []
  | prev, b :: bs =>
      if b ≠ prev then (if b then c.onAction else c.offAction) :: edgeActions c b bs
      else edgeActions c b bs

/-! ## Door animation -/

/-- Search of the rounding position: the least `sh`, counted from the given
one, with `n < 2 ^ (24 + sh)`; `fuel` bounds the number of binades tried. -/
def f32ShiftLoop : Nat → Nat → Nat → Nat
  | 0, sh, _ => sh
  | fuel + 1, sh, n => if n < 2 ^ (24 + sh) then sh else f32ShiftLoop fuel (sh + 1) n

/-- Number of low bits that do not fit the 24-bit significand of a binary32
value of `n` units; 254 binades cover every finite binary32 value. -/
def f32Shift (n : Nat) : Nat := f32ShiftLoop 254 0 n

/-- Rounding of a magnitude of `n` units of `2^-149` to the nearest magnitude
with a 24-bit significand, ties to the even significand (the IEEE 754 default
mode, which `float` addition uses). -/
def f32RoundNat (n : Nat) : Nat :=
  let sh := f32Shift n
  let q := n / 2 ^ sh
  let r := n % 2 ^ sh
  if 2 * r < 2 ^ sh then q * 2 ^ sh
  else if 2 ^ sh < 2 * r then (q + 1) * 2 ^ sh
  else if q % 2 = 0 then q * 2 ^ sh
  else (q + 1) * 2 ^ sh

/-- Rounding of an exact sum to binary32.  A finite `float` is a whole number
of units of `2^-149`, so sums and differences of floats are integers here;
overflow to infinity (at `2^128`) is not modelled, the door values stay
below 2. -/
def f32Round (z : Int) : Int :=
  if 0 ≤ z then (f32RoundNat z.toNat : Int) else -(f32RoundNat (-z).toNat : Int)

/-- The values a `float` can hold, in units of `2^-149`: a significand below
`2^24` times a power of two. -/
def isF32 (z : Int) : Prop :=
  ∃ m e : Nat, m < 2 ^ 24 ∧ z.natAbs = m * 2 ^ e

/-- The constant `1.0f` in units of `2^-149`. -/
def F32_ONE : Int := 2 ^ 149

/-- The constant `0.1f`, which is 13421773 / 2^27, in units of `2^-149`. -/
def F32_TENTH : Int := 13421773 * 2 ^ 122

/-- The number a count of units stands for. -/
def f32Value (z : Int) : ℚ := (z : ℚ) / 2 ^ 149

/-- A door of a tracked train (`TrainInstance::DoorState`); `progress` is the
`float` field in units of `2^-149`. -/
structure DoorState where
  progress : Int
  opening : Bool
  closing : Bool
  deriving DecidableEq

/-- One pass of the body of `for (auto &door : ti.doors)` in `DoorLightThread`:
`progress += 0.1f` and `progress -= 0.1f` are binary32 operations. -/
def updateDoor (door : DoorState) : DoorState :=
  if door.opening then
    let p := f32Round (door.progress + F32_TENTH)
    { door with progress := if p > F32_ONE then F32_ONE else p }
  else if door.closing then
    let p := f32Round (door.progress - F32_TENTH)
    { door with progress := if p < 0 then 0 else p }
  else door

/-- A tracked train (`struct TrainInstance`). -/
structure TrainInstance where
  veh : Option CVehicle
  doors : List DoorState

/-- One iteration of the `for (auto &pair : g_trainInstances)` body of
`DoorLightThread` for one instance: doors first, then the sounds. -/
def DoorLightThreadStep (hash : String → Int) (loadSample : String → Int) (t : ModelTable)
    (a : AudioState) (state : TrainSoundState) (ti : TrainInstance) :
    TrainInstance × AudioState × TrainSoundState :=
  let ti1 := { ti with doors := ti.doors.map updateDoor }
  let r := UpdateTrainSounds hash loadSample t a state ti1.veh
  (ti1, r.1, r.2)

/-- Whether entry `k` of the table carries a name equal to `name` up to case. -/
def nameAt (t : ModelTable) (name : String) (k : Nat) : Bool :=
  match GetModelInfo t k with
  | some m => stricmpEq m.name name
  | none => false

/-- Whether a member name can be resolved: it is already in the model table,
or some catalog record has the same name up to case. -/
def resolvable {δ : Type} (nameOf : δ → String) (cat : List δ) (t : ModelTable)
    (mn : String) : Bool :=
  decide (0 ≤ GetModelIndex t mn) || cat.any (fun d => stricmpEq (nameOf d) mn)

/-- The common shape of the member loops of `RegisterCarGroups` and
`RegisterPedGroups`, over any catalog and registration function. -/
def groupMemberLoop {δ : Type} (nameOf : δ → String) (reg : Host → δ → Int × Host)
    (cat : List δ) : Host → List String → List Int × Host
  | h, [] => ([], h)
  | h, mn :: rest =>
      let id := GetModelIndex h.models mn
      let h1 :=
        if id < 0 then
          match cat.find? (fun d => stricmpEq (nameOf d) mn) with
          | some d => (reg h d).2
          | none => h
        else h
      let id1 := if id < 0 then GetModelIndex h1.models mn else id
      let r := groupMemberLoop nameOf reg cat h1 rest
      (if id1 ≥ 0 then id1 :: r.1 else r.1, r.2)

/-! ## Content catalog -/

/-- The set `" \t\r\n"` that `Trim` strips. -/
def isTrimChar (c : Char) : Bool :=
  c == ' ' || c == '\t' || c == '\r' || c == '\n'

/-- Library call `s.find_first_not_of(" \t\r\n")`: the first position holding a
character outside the set, `none` for `npos`. -/
def find_first_not_of : List Char → Option Nat
  | [] => none
  | c :: cs => if isTrimChar c then (find_first_not_of cs).map (· + 1) else some 0

/-- Library call `s.find_last_not_of(" \t\r\n")`: the last position holding a
character outside the set, `none` for `npos`. -/
def find_last_not_of : List Char → Option Nat
  | [] => none
  | c :: cs =>
      match find_last_not_of cs with
      | some k => some (k + 1)
      | none => if isTrimChar c then none else some 0

/-- Function `Trim(s)` on the characters of `s`.  When `start` is found `end`
is found too, so the inner `none` branch is never taken. -/
def TrimChars (s : List Char) : List Char :=
  match find_first_not_of s with
  | none => []
  | some start =>
      match find_last_not_of s with
      | none => s.drop start
      | some e => (s.drop start).take (e - start + 1)

/-- Function `Trim(s)`. -/
def Trim (s : String) : String :=
  String.mk (TrimChars s.data)

/-- One `std::getline(ss, tok, delim)` on the unread characters of the stream:
`none` when nothing is left to read, otherwise the token up to the next
delimiter (or the end) and the characters left after that delimiter. -/
def getlineDelim (delim : Char) (stream : List Char) : Option (List Char × List Char) :=
  match stream with
  | [] => none
  | _ :: _ =>
      some (stream.takeWhile (fun c => c != delim),
        (stream.dropWhile (fun c => c != delim)).drop 1)

/-- The loop `while (std::getline(ss, tok, ',')) parts.push_back(Trim(tok))`,
with `fuel` iterations left. -/
def readParts : Nat → List Char → List String
  | 0, _ => []
  | fuel + 1, stream =>
      match getlineDelim ',' stream with
      | none => []
      | some (tok, rest) => Trim (String.mk tok) :: readParts fuel rest

/-- The `parts` vector of a trimmed line; a line of `n` characters needs at
most `n` reads plus the failing one. -/
def lineParts (line : String) : List String :=
  readParts (line.data.length + 1) line.data

/-- The test `line.empty() || line[0] == ';' || line[0] == '#'` of the loaders. -/
def skipLine (line : String) : Bool :=
  match line.data with
  | [] => true
  | c :: _ => c == ';' || c == '#'

/-- Body of the `while (std::getline(f, line))` loop of `LoadVehiclesINI` for
one line: `none` when the body ends in `continue`, the pushed record otherwise. -/
def vehicleOfLine (line : String) : Option VehicleDef :=
  let line := Trim line
  if skipLine line then none
  else
    let parts := lineParts line
    if parts.isEmpty then none
    else
      some
        { modelName := parts.getD 0 ""
          handlingId := if parts.length > 1 then parts.getD 1 "" else ""
          carGroup := if parts.length > 2 then parts.getD 2 "" else ""
          flags := 0 }

/-- Body of the `while (std::getline(ff, line))` loop of `LoadPedsINI` for one
line. -/
def pedOfLine (line : String) : Option PedDef :=
  let line := Trim line
  if skipLine line then none
  else
    let parts := lineParts line
    some
      { modelName := if parts.length > 0 then parts.getD 0 "" else ""
        pedType := if parts.length > 1 then parts.getD 1 "" else ""
        voice := if parts.length > 2 then parts.getD 2 "" else ""
        flags := 0 }

/-- The line loop of `LoadVehiclesINI` over the lines `std::getline` yields,
`g` being `g_vehicles` so far. -/
def LoadVehiclesINILoop : List VehicleDef → List String → List VehicleDef
  | g, [] => g
  | g, line :: rest =>
      match vehicleOfLine line with
      | none => LoadVehiclesINILoop g rest
      | some v => LoadVehiclesINILoop (g ++ [v]) rest

/-- The line loop of `LoadPedsINI`, `g` being `g_peds` so far. -/
def LoadPedsINILoop : List PedDef → List String → List PedDef
  | g, [] => g
  | g, line :: rest =>
      match pedOfLine line with
      | none => LoadPedsINILoop g rest
      | some p => LoadPedsINILoop (g ++ [p]) rest

/-- The plugin's catalogs next to the host state. -/
structure PluginState where
  g_vehicles : List VehicleDef
  g_peds : List PedDef
  host : Host

/-- Function `LoadVehiclesINI()`, given the lines of `MyVehicles.ini` (after
the default file has been written when it was missing): clear, then loop. -/
def LoadVehiclesINI (lines : List String) (st : PluginState) : PluginState :=
  { st with g_vehicles := LoadVehiclesINILoop [] lines }

/-- Function `LoadPedsINI()`, given the lines of `MyPeds.ini`. -/
def LoadPedsINI (lines : List String) (st : PluginState) : PluginState :=
  { st with g_peds := LoadPedsINILoop [] lines }

/-! ### The catalog parse in the words of the specification -/

/-- Spec side: a text with its surrounding whitespace removed, trailing first,
then leading. -/
def specTrim (cs : List Char) : List Char :=
  ((cs.reverse.dropWhile isTrimChar).reverse).dropWhile isTrimChar

/-- Spec side: the comma-separated fields of a text; a text with `n` commas
has `n + 1` fields. -/
def specFields : List Char → List (List Char)
  | [] => [[]]
  | c :: cs =>
      if c = ',' then [] :: specFields cs
      else
        match specFields cs with
        | [] => [[c]]
        | f :: fs => (c :: f) :: fs

/-- Spec side: field number `k` of a line, trimmed; the empty string when the
line has no such field. -/
def specField (line : List Char) (k : Nat) : String :=
  String.mk (specTrim ((specFields line).getD k []))

/-- Spec side: a trimmed line yields a record when it is non-empty and does
not start with `;` or `#`. -/
def specIsRecord (line : List Char) : Bool :=
  match line with
  | [] => false
  | c :: _ => !(c == ';' || c == '#')

/-- Spec side: the flags of a line: the fourth field read as a number by
`readFlags` (neither the specification nor the source fixes the notation, the
samples write `0x0`), and zero when the line has no fourth field. -/
def specFlags (readFlags : String → Nat) (line : List Char) : Nat :=
  if (specFields line).length > 3 then readFlags (specField line 3) else 0

/-- Spec side: the vehicle catalog of a sequence of lines. -/
def specParseVehicles (readFlags : String → Nat) (lines : List String) : List VehicleDef :=
  ((lines.map (fun l => specTrim l.data)).filter specIsRecord).map
    (fun l => ⟨specField l 0, specField l 1, specField l 2, specFlags readFlags l⟩)

/-- Spec side: the ped catalog of a sequence of lines. -/
def specParsePeds (readFlags : String → Nat) (lines : List String) : List PedDef :=
  ((lines.map (fun l => specTrim l.data)).filter specIsRecord).map
    (fun l => ⟨specField l 0, specField l 1, specField l 2, specFlags readFlags l⟩)

/-- A line with all four fields, the flags field being `0x5`. -/
def exFlagsLine : String := "a,b,c,0x5"

/-- The lines of the default `MyVehicles.ini` (`DEF_VEHICLES`), with one blank
and one indented comment line added. -/
def exVehicleLines : List String :=
  ["; MyVehicles.ini sample format",
   "; Each non-comment line: modelName, handlingId, carGroup, flags",
   "infernus, HANDLING_SUPER, sport, 0x0",
   "   ",
   "\t# note\r",
   "tahoma, HANDLING_SAL, sedan, 0x0",
   "  bullet ,, \r",
   ",x"]

/-! ## Example data -/

/-- A host with an empty model table. -/
def exHost : Host := ⟨[], [], [], []⟩

/-- A host whose allocations succeed and whose ped types are all 0. -/
def exCfg : HostCfg := ⟨true, fun _ => 0⟩

/-- Two vehicle records that share the name "a". -/
def exVehA1 : VehicleDef := ⟨"a", "H1", "", 0⟩

/-- Second vehicle record named "a". -/
def exVehA2 : VehicleDef := ⟨"a", "H2", "", 0⟩

/-- Two ped records that share the name "a". -/
def exPedA1 : PedDef := ⟨"a", "GANG", "", 0⟩

/-- Second ped record named "a". -/
def exPedA2 : PedDef := ⟨"a", "COP", "", 0⟩

/-- A host whose table holds two models, at indices 0 and 1. -/
def exHostFull2 : Host :=
  ⟨[some ⟨ModelKind.vehicle, "x", none, none⟩, some ⟨ModelKind.ped, "y", none, none⟩], [], [], []⟩

/-- Three vehicle records with distinct names. -/
def exVehB : VehicleDef := ⟨"b", "", "", 0⟩

/-- A vehicle record named "c". -/
def exVehC : VehicleDef := ⟨"c", "H1", "", 0⟩

/-- A ped record named "b". -/
def exPedB : PedDef := ⟨"b", "", "", 0⟩

/-- A ped record named "c". -/
def exPedC : PedDef := ⟨"c", "GANG", "", 0⟩

/-- A host whose only model, at index 0, is its own built-in "infernus". -/
def exHostBuiltin : Host :=
  ⟨[some ⟨ModelKind.vehicle, "infernus", none, none⟩], [], [], []⟩

/-- The catalog record `tahoma, HANDLING_SAL, sedan` of the default `MyVehicles.ini`. -/
def exVehTahoma : VehicleDef := ⟨"tahoma", "HANDLING_SAL", "sedan", 0⟩

/-- The vehicle catalog `{alpha}`. -/
def exVehAlpha : VehicleDef := ⟨"alpha", "HANDLING_SUPER", "sport", 0⟩

/-- The ped catalog `{alpha}`. -/
def exPedAlpha : PedDef := ⟨"alpha", "GANG", "gangB", 0⟩

/-- A vehicle snapshot whose four sampled channels all have the value `b`. -/
def exVehicle (b : Bool) : CVehicle :=
  ⟨0, if b then 1 else 0, if b then 1 else 0, if b then 1 else 0, b, b⟩

/-- A half-open door that is opening: progress 0.5, which is `2^148` units. -/
def exDoor : DoorState := ⟨2 ^ 148, true, false⟩

/-- The bank cache `{"default": {start: pathA}}` with an empty sample cache. -/
def exAudio : AudioState :=
  ⟨[("default", ⟨"base/", [("start", "pathA")]⟩)], [], [], []⟩

/-- A bank cache with a bank under the empty key next to the default bank. -/
def exAudioEmptyKey : AudioState :=
  ⟨[("", ⟨"other/", [("start", "pathB")]⟩), ("default", ⟨"base/", [("start", "pathA")]⟩)],
    [], [], []⟩

/-- A model table whose entry 0 is named "unknown_model". -/
def exModelsUnknown : ModelTable := [some ⟨ModelKind.vehicle, "unknown_model", none, none⟩]

/-- A stand-in for `std::hash<std::string>` cut to `int`. -/
def exHash (s : String) : Int := (s.length : Int)

/-- A host `LoadSample` that always succeeds with handle 7. -/
def exLoadOk (_ : String) : Int := 7

/-- A host `LoadSample` that always fails. -/
def exLoadFail (_ : String) : Int := -1

/-- A model table whose entry 0 has the empty name. -/
def exModelsNoName : ModelTable := [some ⟨ModelKind.vehicle, "", none, none⟩]

/-! ## Lemmas on the host resource table -/

theorem GetModelInfo_nil (j : Nat) : GetModelInfo [] j = none := by
  cases j <;> rfl

theorem GetModelInfo_AddModel (t : ModelTable) (i : Nat) (m : ModelInfo) (j : Nat) :
    GetModelInfo (AddModel t i m) j = if j = i then some m else GetModelInfo t j := by
  induction t generalizing i j with
  | nil =>
    induction i generalizing j with
    | zero => cases j <;> simp [AddModel, GetModelInfo]
    | succ i ih =>
      cases j with
      | zero => simp [AddModel, GetModelInfo]
      | succ j => simp [AddModel, GetModelInfo, ih, GetModelInfo_nil]
  | cons x xs ih =>
    cases i with
    | zero => cases j <;> simp [AddModel, GetModelInfo]
    | succ i =>
      cases j with
      | zero => simp [AddModel, GetModelInfo]
      | succ j => simp [AddModel, GetModelInfo, ih]

theorem GetModelInfo_RemoveModel (t : ModelTable) (i j : Nat) :
    GetModelInfo (RemoveModel t i) j = if j = i then none else GetModelInfo t j := by
  induction t generalizing i j with
  | nil => simp [RemoveModel, GetModelInfo_nil]
  | cons x xs ih =>
    cases i with
    | zero => cases j <;> simp [RemoveModel, GetModelInfo]
    | succ i =>
      cases j with
      | zero => simp [RemoveModel, GetModelInfo]
      | succ j => simp [RemoveModel, GetModelInfo, ih]

/-- What the scan of `FindFreeModelIndex` answers, started at `i` with `fuel`
iterations: either -1 with every scanned index held, or the first free one. -/
theorem FindFreeModelIndexLoop_spec (t : ModelTable) (fuel i : Nat) :
    (FindFreeModelIndexLoop t i fuel = -1 ∧
        ∀ j, i ≤ j → j < i + fuel → GetModelInfo t j ≠ none) ∨
    (∃ k : Nat, FindFreeModelIndexLoop t i fuel = (k : Int) ∧ i ≤ k ∧ k < i + fuel ∧
        GetModelInfo t k = none ∧ ∀ j, i ≤ j → j < k → GetModelInfo t j ≠ none) := by
  induction fuel generalizing i with
  | zero =>
    left
    exact ⟨rfl, fun j h1 h2 => by omega⟩
  | succ fuel ih =>
    unfold FindFreeModelIndexLoop
    by_cases hi : GetModelInfo t i = none
    · right
      refine ⟨i, by simp [hi], le_refl _, by omega, hi, fun j h1 h2 => by omega⟩
    · simp only [hi, if_false]
      rcases ih (i + 1) with ⟨h1, h2⟩ | ⟨k, h1, h2, h3, h4, h5⟩
      · left
        refine ⟨h1, fun j hj1 hj2 => ?_⟩
        by_cases hji : j = i
        · subst hji; exact hi
        · exact h2 j (by omega) (by omega)
      · right
        refine ⟨k, h1, by omega, by omega, h4, fun j hj1 hj2 => ?_⟩
        by_cases hji : j = i
        · subst hji; exact hi
        · exact h5 j (by omega) hj2

theorem FindFreeModelIndexBelow_spec (maxModels : Nat) (t : ModelTable) :
    (FindFreeModelIndexBelow maxModels t = -1 ∧
        ∀ j, j < maxModels → GetModelInfo t j ≠ none) ∨
    (∃ k : Nat, FindFreeModelIndexBelow maxModels t = (k : Int) ∧ k < maxModels ∧
        GetModelInfo t k = none ∧ ∀ j, j < k → GetModelInfo t j ≠ none) := by
  rcases FindFreeModelIndexLoop_spec t maxModels 0 with ⟨h1, h2⟩ | ⟨k, h1, _, h3, h4, h5⟩
  · left
    exact ⟨h1, fun j hj => h2 j (Nat.zero_le _) (by omega)⟩
  · right
    exact ⟨k, h1, by omega, h4, fun j hj => h5 j (Nat.zero_le _) hj⟩

/-- The scan answers `k` exactly when `k` is the least free index below the bound. -/
theorem FindFreeModelIndexBelow_eq_iff (maxModels : Nat) (t : ModelTable) (k : Nat) :
    FindFreeModelIndexBelow maxModels t = (k : Int) ↔
      (k < maxModels ∧ GetModelInfo t k = none ∧ ∀ j, j < k → GetModelInfo t j ≠ none) := by
  rcases FindFreeModelIndexBelow_spec maxModels t with ⟨h1, h2⟩ | ⟨k1, h1, h2, h3, h4⟩
  · constructor
    · intro h; rw [h1] at h; omega
    · rintro ⟨a, b, _⟩; exact absurd b (h2 k a)
  · constructor
    · intro h
      rw [h1] at h
      have : k1 = k := by exact_mod_cast h
      subst this
      exact ⟨h2, h3, h4⟩
    · rintro ⟨a, b, c⟩
      rw [h1]
      have : k1 = k := by
        rcases Nat.lt_trichotomy k1 k with h | h | h
        · exact absurd h3 (c k1 h)
        · exact h
        · exact absurd b (h4 k h)
      rw [this]

/-- The scan answers -1 exactly when every index below the bound is held. -/
theorem FindFreeModelIndexBelow_eq_neg_one_iff (maxModels : Nat) (t : ModelTable) :
    FindFreeModelIndexBelow maxModels t = -1 ↔ ∀ j, j < maxModels → GetModelInfo t j ≠ none := by
  rcases FindFreeModelIndexBelow_spec maxModels t with ⟨h1, h2⟩ | ⟨k1, h1, h2, h3, _⟩
  · exact ⟨fun _ => h2, fun _ => h1⟩
  · constructor
    · intro h; rw [h1] at h; omega
    · intro h; exact absurd h3 (h k1 h2)

/-! ## Slot allocation, registration and cleanup -/

/-- C2: `FindFreeModelIndex` (scanning `[0, maxModels)`, `maxModels = MAX_MODELS`
in the source) answers either -1 or an index; it answers `k` exactly when `k`
is the least index below the bound with no model info, so never an index that
is held; it answers -1 exactly when every index below the bound is held; and
an index freed by `RemoveModel` is answered again once all lower indices are
held. -/
theorem C2_FindFreeModelIndex_least_free (maxModels : Nat) (t : ModelTable) :
    (FindFreeModelIndexBelow maxModels t = -1 ∨
      ∃ k : Nat, FindFreeModelIndexBelow maxModels t = (k : Int)) ∧
    (∀ k : Nat, FindFreeModelIndexBelow maxModels t = (k : Int) ↔
      (k < maxModels ∧ GetModelInfo t k = none ∧ ∀ j, j < k → GetModelInfo t j ≠ none)) ∧
    (FindFreeModelIndexBelow maxModels t = -1 ↔
      ∀ j, j < maxModels → GetModelInfo t j ≠ none) ∧
    (∀ i : Nat, i < maxModels → (∀ j, j < i → GetModelInfo t j ≠ none) →
      FindFreeModelIndexBelow maxModels (RemoveModel t i) = (i : Int)) ∧
    FindFreeModelIndex t = FindFreeModelIndexBelow MAX_MODELS t := by
  refine ⟨?_, FindFreeModelIndexBelow_eq_iff maxModels t,
    FindFreeModelIndexBelow_eq_neg_one_iff maxModels t, ?_, rfl⟩
  · rcases FindFreeModelIndexBelow_spec maxModels t with ⟨h1, _⟩ | ⟨k, h1, _⟩
    · exact Or.inl h1
    · exact Or.inr ⟨k, h1⟩
  · intro i hi hlow
    rw [FindFreeModelIndexBelow_eq_iff]
    refine ⟨hi, by simp [GetModelInfo_RemoveModel], fun j hj => ?_⟩
    rw [GetModelInfo_RemoveModel, if_neg (by omega)]
    exact hlow j hj

theorem LoadModelFilesByName_models (h : Host) (n : String) :
    (LoadModelFilesByName h n).2.models = h.models := by
  unfold LoadModelFilesByName
  split <;> rfl

/-- Registration of a vehicle when the scan answers the free index `k`. -/
theorem RegisterVehicleModel_free (maxModels : Nat) (cfg : HostCfg) (h : Host) (v : VehicleDef)
    (k : Nat) (hk : FindFreeModelIndexBelow maxModels h.models = (k : Int)) :
    ∃ m : ModelInfo, m.name = v.modelName ∧
      (m.kind = ModelKind.vehicle ∨ m.kind = ModelKind.generic) ∧
      (RegisterVehicleModel maxModels cfg h v).1 = (k : Int) ∧
      (RegisterVehicleModel maxModels cfg h v).2.models = AddModel h.models k m := by
  have hneg : ¬ ((k : Int) < 0) := by omega
  unfold RegisterVehicleModel
  simp only [hk, hneg, if_false, Int.toNat_ofNat, LoadModelFilesByName_models]
  split
  · exact ⟨_, rfl, Or.inr rfl, rfl, rfl⟩
  · split
    · exact ⟨_, rfl, Or.inl rfl, rfl, rfl⟩
    · split
      · exact ⟨_, rfl, Or.inl rfl, rfl, rfl⟩
      · exact ⟨_, rfl, Or.inl rfl, rfl, rfl⟩

/-- Registration of a ped when the scan answers the free index `k`. -/
theorem RegisterPedModel_free (maxModels : Nat) (cfg : HostCfg) (h : Host) (p : PedDef)
    (k : Nat) (hk : FindFreeModelIndexBelow maxModels h.models = (k : Int)) :
    ∃ m : ModelInfo, m.name = p.modelName ∧
      (m.kind = ModelKind.ped ∨ m.kind = ModelKind.generic) ∧
      (RegisterPedModel maxModels cfg h p).1 = (k : Int) ∧
      (RegisterPedModel maxModels cfg h p).2.models = AddModel h.models k m := by
  have hneg : ¬ ((k : Int) < 0) := by omega
  unfold RegisterPedModel
  simp only [hk, hneg, if_false, Int.toNat_ofNat, LoadModelFilesByName_models]
  split
  · exact ⟨_, rfl, Or.inr rfl, rfl, rfl⟩
  · split
    · exact ⟨_, rfl, Or.inl rfl, rfl, rfl⟩
    · exact ⟨_, rfl, Or.inl rfl, rfl, rfl⟩

/-- Registration when the scan answers -1: nothing happens. -/
theorem RegisterVehicleModel_full (maxModels : Nat) (cfg : HostCfg) (h : Host) (v : VehicleDef)
    (hk : FindFreeModelIndexBelow maxModels h.models = -1) :
    RegisterVehicleModel maxModels cfg h v = (-1, h) := by
  unfold RegisterVehicleModel
  simp [hk]

theorem RegisterPedModel_full (maxModels : Nat) (cfg : HostCfg) (h : Host) (p : PedDef)
    (hk : FindFreeModelIndexBelow maxModels h.models = -1) :
    RegisterPedModel maxModels cfg h p = (-1, h) := by
  unfold RegisterPedModel
  simp [hk]

/-- With two free indices below the bound, the scan answers an index `i`, and
after any `AddModel` at `i` it answers a larger index `j`. -/
theorem two_free_scan (maxModels : Nat) (t : ModelTable) (a b : Nat) (hab : a < b)
    (hb : b < maxModels) (ha : GetModelInfo t a = none) (hb1 : GetModelInfo t b = none) :
    ∃ i : Nat, FindFreeModelIndexBelow maxModels t = (i : Int) ∧ i < maxModels ∧
      GetModelInfo t i = none ∧
      ∀ m : ModelInfo, ∃ j : Nat,
        FindFreeModelIndexBelow maxModels (AddModel t i m) = (j : Int) ∧ i < j ∧ j < maxModels ∧
        GetModelInfo t j = none := by
  rcases FindFreeModelIndexBelow_spec maxModels t with ⟨_, h2⟩ | ⟨i, h1, h2, h3, h4⟩
  · exact absurd hb1 (h2 b hb)
  · refine ⟨i, h1, h2, h3, fun m => ?_⟩
    have hia : i ≤ a := by
      by_contra hc
      exact h4 a (by omega) ha
    rcases FindFreeModelIndexBelow_spec maxModels (AddModel t i m) with ⟨_, g2⟩ | ⟨j, g1, g2, g3, g4⟩
    · exfalso
      apply g2 b hb
      rw [GetModelInfo_AddModel, if_neg (by omega)]
      exact hb1
    · have hji : j ≠ i := by
        intro hc
        rw [hc, GetModelInfo_AddModel] at g3
        simp at g3
      rw [GetModelInfo_AddModel, if_neg hji] at g3
      have hij : i < j := by
        rcases Nat.lt_trichotomy i j with hlt | heq | hgt
        · exact hlt
        · exact absurd heq.symm hji
        · exact absurd g3 (h4 j hgt)
      exact ⟨j, g1, hij, g2, g3⟩

/-- C1 (as stated, refuted): on an empty table two registrations of the same
name "a" answer the different indices 0 and 1, and the table then holds two
slots named "a", the second with the second descriptor's handling id. -/
theorem C1_counterexample_same_name_registered_twice :
    (RegisterVehicleModel MAX_MODELS exCfg exHost exVehA1).1 = 0 ∧
    (RegisterVehicleModel MAX_MODELS exCfg
      (RegisterVehicleModel MAX_MODELS exCfg exHost exVehA1).2 exVehA2).1 = 1 ∧
    (RegisterVehicleModel MAX_MODELS exCfg
      (RegisterVehicleModel MAX_MODELS exCfg exHost exVehA1).2 exVehA2).2.models =
      [some ⟨ModelKind.vehicle, "a", some 0, none⟩, some ⟨ModelKind.vehicle, "a", some 1, none⟩] := by
  decide

/-- C1 (amended): with at least two free indices below the bound, registering
`v1` and then `v2`, both named `n`, answers two different indices `i < j`, each
the lowest free index at the time of its call; afterwards slot `i` is exactly
what the first call stored (named `n`), slot `j` is a second slot named `n`,
and every other slot is as before.  The same holds for `RegisterPedModel`. -/
theorem C1_register_same_name_takes_two_slots (maxModels : Nat) (cfg : HostCfg) (h : Host)
    (n : String) (a b : Nat) (v1 v2 : VehicleDef) (p1 p2 : PedDef)
    (hab : a < b) (hb : b < maxModels)
    (ha : GetModelInfo h.models a = none) (hb1 : GetModelInfo h.models b = none)
    (hv1 : v1.modelName = n) (hv2 : v2.modelName = n)
    (hp1 : p1.modelName = n) (hp2 : p2.modelName = n) :
    (∃ (i j : Nat) (m1 m2 : ModelInfo), i < j ∧ j < maxModels ∧
        FindFreeModelIndexBelow maxModels h.models = (i : Int) ∧
        (RegisterVehicleModel maxModels cfg h v1).1 = (i : Int) ∧
        FindFreeModelIndexBelow maxModels (RegisterVehicleModel maxModels cfg h v1).2.models
          = (j : Int) ∧
        (RegisterVehicleModel maxModels cfg (RegisterVehicleModel maxModels cfg h v1).2 v2).1
          = (j : Int) ∧
        m1.name = n ∧ m2.name = n ∧
        GetModelInfo (RegisterVehicleModel maxModels cfg h v1).2.models i = some m1 ∧
        (∀ x : Nat,
          GetModelInfo
            (RegisterVehicleModel maxModels cfg (RegisterVehicleModel maxModels cfg h v1).2 v2).2.models
            x =
          if x = j then some m2 else if x = i then some m1 else GetModelInfo h.models x)) ∧
    (∃ (i j : Nat) (m1 m2 : ModelInfo), i < j ∧ j < maxModels ∧
        FindFreeModelIndexBelow maxModels h.models = (i : Int) ∧
        (RegisterPedModel maxModels cfg h p1).1 = (i : Int) ∧
        FindFreeModelIndexBelow maxModels (RegisterPedModel maxModels cfg h p1).2.models
          = (j : Int) ∧
        (RegisterPedModel maxModels cfg (RegisterPedModel maxModels cfg h p1).2 p2).1
          = (j : Int) ∧
        m1.name = n ∧ m2.name = n ∧
        GetModelInfo (RegisterPedModel maxModels cfg h p1).2.models i = some m1 ∧
        (∀ x : Nat,
          GetModelInfo
            (RegisterPedModel maxModels cfg (RegisterPedModel maxModels cfg h p1).2 p2).2.models
            x =
          if x = j then some m2 else if x = i then some m1 else GetModelInfo h.models x)) := by
  obtain ⟨i, hi, _, _, hnext⟩ := two_free_scan maxModels h.models a b hab hb ha hb1
  constructor
  · obtain ⟨m1, hm1, _, r1, t1⟩ := RegisterVehicleModel_free maxModels cfg h v1 i hi
    obtain ⟨j, hj, hij, hjm, _⟩ := hnext m1
    rw [← t1] at hj
    obtain ⟨m2, hm2, _, r2, t2⟩ :=
      RegisterVehicleModel_free maxModels cfg (RegisterVehicleModel maxModels cfg h v1).2 v2 j hj
    refine ⟨i, j, m1, m2, hij, hjm, hi, r1, hj, r2, hm1.trans hv1, hm2.trans hv2, ?_, ?_⟩
    · rw [t1, GetModelInfo_AddModel, if_pos rfl]
    · intro x
      rw [t2, GetModelInfo_AddModel, t1, GetModelInfo_AddModel]
  · obtain ⟨m1, hm1, _, r1, t1⟩ := RegisterPedModel_free maxModels cfg h p1 i hi
    obtain ⟨j, hj, hij, hjm, _⟩ := hnext m1
    rw [← t1] at hj
    obtain ⟨m2, hm2, _, r2, t2⟩ :=
      RegisterPedModel_free maxModels cfg (RegisterPedModel maxModels cfg h p1).2 p2 j hj
    refine ⟨i, j, m1, m2, hij, hjm, hi, r1, hj, r2, hm1.trans hp1, hm2.trans hp2, ?_, ?_⟩
    · rw [t1, GetModelInfo_AddModel, if_pos rfl]
    · intro x
      rw [t2, GetModelInfo_AddModel, t1, GetModelInfo_AddModel]

/-- C1 witness: the empty table, bound 4000, two vehicles and two peds named "a". -/
theorem C1_register_same_name_takes_two_slots_witness :
    (∃ (i j : Nat) (m1 m2 : ModelInfo), i < j ∧ j < MAX_MODELS ∧
        FindFreeModelIndexBelow MAX_MODELS exHost.models = (i : Int) ∧
        (RegisterVehicleModel MAX_MODELS exCfg exHost exVehA1).1 = (i : Int) ∧
        FindFreeModelIndexBelow MAX_MODELS
          (RegisterVehicleModel MAX_MODELS exCfg exHost exVehA1).2.models = (j : Int) ∧
        (RegisterVehicleModel MAX_MODELS exCfg
          (RegisterVehicleModel MAX_MODELS exCfg exHost exVehA1).2 exVehA2).1 = (j : Int) ∧
        m1.name = "a" ∧ m2.name = "a" ∧
        GetModelInfo (RegisterVehicleModel MAX_MODELS exCfg exHost exVehA1).2.models i = some m1 ∧
        (∀ x : Nat,
          GetModelInfo
            (RegisterVehicleModel MAX_MODELS exCfg
              (RegisterVehicleModel MAX_MODELS exCfg exHost exVehA1).2 exVehA2).2.models x =
          if x = j then some m2 else if x = i then some m1 else GetModelInfo exHost.models x)) ∧
    (∃ (i j : Nat) (m1 m2 : ModelInfo), i < j ∧ j < MAX_MODELS ∧
        FindFreeModelIndexBelow MAX_MODELS exHost.models = (i : Int) ∧
        (RegisterPedModel MAX_MODELS exCfg exHost exPedA1).1 = (i : Int) ∧
        FindFreeModelIndexBelow MAX_MODELS
          (RegisterPedModel MAX_MODELS exCfg exHost exPedA1).2.models = (j : Int) ∧
        (RegisterPedModel MAX_MODELS exCfg
          (RegisterPedModel MAX_MODELS exCfg exHost exPedA1).2 exPedA2).1 = (j : Int) ∧
        m1.name = "a" ∧ m2.name = "a" ∧
        GetModelInfo (RegisterPedModel MAX_MODELS exCfg exHost exPedA1).2.models i = some m1 ∧
        (∀ x : Nat,
          GetModelInfo
            (RegisterPedModel MAX_MODELS exCfg
              (RegisterPedModel MAX_MODELS exCfg exHost exPedA1).2 exPedA2).2.models x =
          if x = j then some m2 else if x = i then some m1 else GetModelInfo exHost.models x)) :=
  C1_register_same_name_takes_two_slots MAX_MODELS exCfg exHost "a" 0 1 exVehA1 exVehA2
    exPedA1 exPedA2 (by decide) (by decide) rfl rfl rfl rfl rfl rfl

/-- Two registrations into a slot space of size 2 whose two indices are free,
followed by any third: the answers are 0, 1 and -1, and the third call leaves
the host as the second left it. -/
theorem three_vehicle_registrations (cfg : HostCfg) (h : Host) (v1 v2 v3 : VehicleDef)
    (h0 : GetModelInfo h.models 0 = none) (h1 : GetModelInfo h.models 1 = none) :
    ∃ m1 m2 : ModelInfo, m1.name = v1.modelName ∧ m2.name = v2.modelName ∧
      (RegisterVehicleModel 2 cfg h v1).1 = 0 ∧
      (RegisterVehicleModel 2 cfg (RegisterVehicleModel 2 cfg h v1).2 v2).1 = 1 ∧
      RegisterVehicleModel 2 cfg
        (RegisterVehicleModel 2 cfg (RegisterVehicleModel 2 cfg h v1).2 v2).2 v3 =
        (-1, (RegisterVehicleModel 2 cfg (RegisterVehicleModel 2 cfg h v1).2 v2).2) ∧
      GetModelInfo (RegisterVehicleModel 2 cfg
        (RegisterVehicleModel 2 cfg (RegisterVehicleModel 2 cfg h v1).2 v2).2 v3).2.models 0
        = some m1 ∧
      GetModelInfo (RegisterVehicleModel 2 cfg
        (RegisterVehicleModel 2 cfg (RegisterVehicleModel 2 cfg h v1).2 v2).2 v3).2.models 1
        = some m2 := by
  have f0 : FindFreeModelIndexBelow 2 h.models = ((0 : Nat) : Int) :=
    (FindFreeModelIndexBelow_eq_iff 2 h.models 0).2 ⟨by omega, h0, fun j hj => by omega⟩
  obtain ⟨m1, hm1, _, r1, t1⟩ := RegisterVehicleModel_free 2 cfg h v1 0 f0
  have f1 : FindFreeModelIndexBelow 2 (RegisterVehicleModel 2 cfg h v1).2.models
      = ((1 : Nat) : Int) := by
    rw [FindFreeModelIndexBelow_eq_iff, t1]
    refine ⟨by omega, by rw [GetModelInfo_AddModel]; simpa using h1, fun j hj => ?_⟩
    have : j = 0 := by omega
    subst this
    simp [GetModelInfo_AddModel]
  obtain ⟨m2, hm2, _, r2, t2⟩ :=
    RegisterVehicleModel_free 2 cfg (RegisterVehicleModel 2 cfg h v1).2 v2 1 f1
  have f2 : FindFreeModelIndexBelow 2
      (RegisterVehicleModel 2 cfg (RegisterVehicleModel 2 cfg h v1).2 v2).2.models = -1 := by
    rw [FindFreeModelIndexBelow_eq_neg_one_iff, t2, t1]
    intro j hj
    rcases (by omega : j = 0 ∨ j = 1) with rfl | rfl <;> simp [GetModelInfo_AddModel]
  have r3 := RegisterVehicleModel_full 2 cfg _ v3 f2
  refine ⟨m1, m2, hm1, hm2, by simpa using r1, by simpa using r2, r3, ?_, ?_⟩
  · rw [r3]; simp [t2, t1, GetModelInfo_AddModel]
  · rw [r3]; simp [t2, GetModelInfo_AddModel]

/-- The ped counterpart of `three_vehicle_registrations`. -/
theorem three_ped_registrations (cfg : HostCfg) (h : Host) (p1 p2 p3 : PedDef)
    (h0 : GetModelInfo h.models 0 = none) (h1 : GetModelInfo h.models 1 = none) :
    ∃ m1 m2 : ModelInfo, m1.name = p1.modelName ∧ m2.name = p2.modelName ∧
      (RegisterPedModel 2 cfg h p1).1 = 0 ∧
      (RegisterPedModel 2 cfg (RegisterPedModel 2 cfg h p1).2 p2).1 = 1 ∧
      RegisterPedModel 2 cfg
        (RegisterPedModel 2 cfg (RegisterPedModel 2 cfg h p1).2 p2).2 p3 =
        (-1, (RegisterPedModel 2 cfg (RegisterPedModel 2 cfg h p1).2 p2).2) ∧
      GetModelInfo (RegisterPedModel 2 cfg
        (RegisterPedModel 2 cfg (RegisterPedModel 2 cfg h p1).2 p2).2 p3).2.models 0
        = some m1 ∧
      GetModelInfo (RegisterPedModel 2 cfg
        (RegisterPedModel 2 cfg (RegisterPedModel 2 cfg h p1).2 p2).2 p3).2.models 1
        = some m2 := by
  have f0 : FindFreeModelIndexBelow 2 h.models = ((0 : Nat) : Int) :=
    (FindFreeModelIndexBelow_eq_iff 2 h.models 0).2 ⟨by omega, h0, fun j hj => by omega⟩
  obtain ⟨m1, hm1, _, r1, t1⟩ := RegisterPedModel_free 2 cfg h p1 0 f0
  have f1 : FindFreeModelIndexBelow 2 (RegisterPedModel 2 cfg h p1).2.models
      = ((1 : Nat) : Int) := by
    rw [FindFreeModelIndexBelow_eq_iff, t1]
    refine ⟨by omega, by rw [GetModelInfo_AddModel]; simpa using h1, fun j hj => ?_⟩
    have : j = 0 := by omega
    subst this
    simp [GetModelInfo_AddModel]
  obtain ⟨m2, hm2, _, r2, t2⟩ :=
    RegisterPedModel_free 2 cfg (RegisterPedModel 2 cfg h p1).2 p2 1 f1
  have f2 : FindFreeModelIndexBelow 2
      (RegisterPedModel 2 cfg (RegisterPedModel 2 cfg h p1).2 p2).2.models = -1 := by
    rw [FindFreeModelIndexBelow_eq_neg_one_iff, t2, t1]
    intro j hj
    rcases (by omega : j = 0 ∨ j = 1) with rfl | rfl <;> simp [GetModelInfo_AddModel]
  have r3 := RegisterPedModel_full 2 cfg _ p3 f2
  refine ⟨m1, m2, hm1, hm2, by simpa using r1, by simpa using r2, r3, ?_, ?_⟩
  · rw [r3]; simp [t2, t1, GetModelInfo_AddModel]
  · rw [r3]; simp [t2, GetModelInfo_AddModel]

/-- C9: when every index below the bound is held, `RegisterVehicleModel` and
`RegisterPedModel` answer -1 and return the host state untouched (model table
included).  With a slot space of size 2 whose two indices are free in `h2`,
three registrations answer 0, 1 and -1; the third changes nothing, and slots 0
and 1 still hold the models of the first two descriptors. -/
theorem C9_register_full_returns_none (maxModels : Nat) (cfg : HostCfg) (h h2 : Host)
    (v v1 v2 v3 : VehicleDef) (p p1 p2 p3 : PedDef)
    (hfull : ∀ j, j < maxModels → GetModelInfo h.models j ≠ none)
    (h0 : GetModelInfo h2.models 0 = none) (h1 : GetModelInfo h2.models 1 = none) :
    RegisterVehicleModel maxModels cfg h v = (-1, h) ∧
    RegisterPedModel maxModels cfg h p = (-1, h) ∧
    (∃ m1 m2 : ModelInfo, m1.name = v1.modelName ∧ m2.name = v2.modelName ∧
      (RegisterVehicleModel 2 cfg h2 v1).1 = 0 ∧
      (RegisterVehicleModel 2 cfg (RegisterVehicleModel 2 cfg h2 v1).2 v2).1 = 1 ∧
      RegisterVehicleModel 2 cfg
        (RegisterVehicleModel 2 cfg (RegisterVehicleModel 2 cfg h2 v1).2 v2).2 v3 =
        (-1, (RegisterVehicleModel 2 cfg (RegisterVehicleModel 2 cfg h2 v1).2 v2).2) ∧
      GetModelInfo (RegisterVehicleModel 2 cfg
        (RegisterVehicleModel 2 cfg (RegisterVehicleModel 2 cfg h2 v1).2 v2).2 v3).2.models 0
        = some m1 ∧
      GetModelInfo (RegisterVehicleModel 2 cfg
        (RegisterVehicleModel 2 cfg (RegisterVehicleModel 2 cfg h2 v1).2 v2).2 v3).2.models 1
        = some m2) ∧
    (∃ m1 m2 : ModelInfo, m1.name = p1.modelName ∧ m2.name = p2.modelName ∧
      (RegisterPedModel 2 cfg h2 p1).1 = 0 ∧
      (RegisterPedModel 2 cfg (RegisterPedModel 2 cfg h2 p1).2 p2).1 = 1 ∧
      RegisterPedModel 2 cfg
        (RegisterPedModel 2 cfg (RegisterPedModel 2 cfg h2 p1).2 p2).2 p3 =
        (-1, (RegisterPedModel 2 cfg (RegisterPedModel 2 cfg h2 p1).2 p2).2) ∧
      GetModelInfo (RegisterPedModel 2 cfg
        (RegisterPedModel 2 cfg (RegisterPedModel 2 cfg h2 p1).2 p2).2 p3).2.models 0
        = some m1 ∧
      GetModelInfo (RegisterPedModel 2 cfg
        (RegisterPedModel 2 cfg (RegisterPedModel 2 cfg h2 p1).2 p2).2 p3).2.models 1
        = some m2) :=
  ⟨RegisterVehicleModel_full maxModels cfg h v
      ((FindFreeModelIndexBelow_eq_neg_one_iff maxModels h.models).2 hfull),
    RegisterPedModel_full maxModels cfg h p
      ((FindFreeModelIndexBelow_eq_neg_one_iff maxModels h.models).2 hfull),
    three_vehicle_registrations cfg h2 v1 v2 v3 h0 h1,
    three_ped_registrations cfg h2 p1 p2 p3 h0 h1⟩

/-- C9 witness: a full slot space of size 2, and three registrations of the
names "a", "b", "c" into an empty one. -/
theorem C9_register_full_returns_none_witness :
    RegisterVehicleModel 2 exCfg exHostFull2 exVehC = (-1, exHostFull2) ∧
    RegisterPedModel 2 exCfg exHostFull2 exPedC = (-1, exHostFull2) ∧
    (∃ m1 m2 : ModelInfo, m1.name = exVehA1.modelName ∧ m2.name = exVehB.modelName ∧
      (RegisterVehicleModel 2 exCfg exHost exVehA1).1 = 0 ∧
      (RegisterVehicleModel 2 exCfg (RegisterVehicleModel 2 exCfg exHost exVehA1).2 exVehB).1
        = 1 ∧
      RegisterVehicleModel 2 exCfg
        (RegisterVehicleModel 2 exCfg (RegisterVehicleModel 2 exCfg exHost exVehA1).2 exVehB).2
        exVehC =
        (-1, (RegisterVehicleModel 2 exCfg
          (RegisterVehicleModel 2 exCfg exHost exVehA1).2 exVehB).2) ∧
      GetModelInfo (RegisterVehicleModel 2 exCfg
        (RegisterVehicleModel 2 exCfg (RegisterVehicleModel 2 exCfg exHost exVehA1).2 exVehB).2
        exVehC).2.models 0 = some m1 ∧
      GetModelInfo (RegisterVehicleModel 2 exCfg
        (RegisterVehicleModel 2 exCfg (RegisterVehicleModel 2 exCfg exHost exVehA1).2 exVehB).2
        exVehC).2.models 1 = some m2) ∧
    (∃ m1 m2 : ModelInfo, m1.name = exPedA1.modelName ∧ m2.name = exPedB.modelName ∧
      (RegisterPedModel 2 exCfg exHost exPedA1).1 = 0 ∧
      (RegisterPedModel 2 exCfg (RegisterPedModel 2 exCfg exHost exPedA1).2 exPedB).1 = 1 ∧
      RegisterPedModel 2 exCfg
        (RegisterPedModel 2 exCfg (RegisterPedModel 2 exCfg exHost exPedA1).2 exPedB).2
        exPedC =
        (-1, (RegisterPedModel 2 exCfg (RegisterPedModel 2 exCfg exHost exPedA1).2 exPedB).2) ∧
      GetModelInfo (RegisterPedModel 2 exCfg
        (RegisterPedModel 2 exCfg (RegisterPedModel 2 exCfg exHost exPedA1).2 exPedB).2
        exPedC).2.models 0 = some m1 ∧
      GetModelInfo (RegisterPedModel 2 exCfg
        (RegisterPedModel 2 exCfg (RegisterPedModel 2 exCfg exHost exPedA1).2 exPedB).2
        exPedC).2.models 1 = some m2) :=
  C9_register_full_returns_none 2 exCfg exHostFull2 exHost exVehC exVehA1 exVehB exVehC
    exPedC exPedA1 exPedB exPedC (by decide) rfl rfl

theorem containsSub_iff (pat s : List Char) : containsSub pat s = true ↔ List.IsInfix pat s := by
  induction s with
  | nil => simp [containsSub, List.isEmpty_iff]
  | cons c cs ih =>
    rw [containsSub, Bool.or_eq_true, ih, List.infix_cons_iff, List.isPrefixOf_iff_prefix]

/-- The name test of the cleanup: the name begins with "my_" or has
"infernus" somewhere inside. -/
theorem isCustomName_iff (sname : String) :
    isCustomName sname = true ↔
      List.IsPrefix "my_".data sname.data ∨ List.IsInfix "infernus".data sname.data := by
  rw [isCustomName, Bool.or_eq_true, containsSub_iff, List.isPrefixOf_iff_prefix]

theorem ClearAllCustomModelsLoop_models (fuel : Nat) (h : Host) (i x : Nat) :
    GetModelInfo (ClearAllCustomModelsLoop h i fuel).models x =
      if i ≤ x ∧ x < i + fuel then
        (GetModelInfo h.models x).filter (fun mi => !isCustomName mi.name)
      else GetModelInfo h.models x := by
  induction fuel generalizing h i with
  | zero =>
    rw [ClearAllCustomModelsLoop, if_neg (by omega)]
  | succ fuel ih =>
    rw [ClearAllCustomModelsLoop]
    by_cases hx : x = i
    · subst hx
      rw [if_pos (by omega)]
      split
      · next hn => rw [ih, if_neg (by omega), hn]; rfl
      · next mi hs =>
        split
        · next hc =>
          rw [ih, if_neg (by omega)]
          simp [GetModelInfo_RemoveModel, hs, Option.filter, hc]
        · next hc =>
          rw [ih, if_neg (by omega), hs]
          simp [Option.filter, hc]
    · have e : (i + 1 ≤ x ∧ x < i + 1 + fuel) ↔ (i ≤ x ∧ x < i + (fuel + 1)) := by omega
      split
      · rw [ih]; simp only [e]
      · split
        · rw [ih]
          simp only [e, GetModelInfo_RemoveModel, if_neg hx]
        · rw [ih]; simp only [e]

theorem ClearAllCustomModelsLoop_handling (fuel : Nat) (h : Host) (i : Nat) :
    (ClearAllCustomModelsLoop h i fuel).handling = h.handling ∧
    (ClearAllCustomModelsLoop h i fuel).loadedFiles = h.loadedFiles := by
  induction fuel generalizing h i with
  | zero => exact ⟨rfl, rfl⟩
  | succ fuel ih =>
    rw [ClearAllCustomModelsLoop]
    split
    · exact ih h (i + 1)
    · split
      · exact ih _ (i + 1)
      · exact ih h (i + 1)

/-- C10 (as stated, refuted): the host starts with its built-in "infernus" at
index 0 and index 1 free; startup registers the catalog record "tahoma" at
index 1; shutdown then removes the built-in at index 0 and keeps the
registered slot 1. -/
theorem C10_counterexample_builtin_removed_registered_kept :
    GetModelInfo exHostBuiltin.models 0 = some ⟨ModelKind.vehicle, "infernus", none, none⟩ ∧
    GetModelInfo exHostBuiltin.models 1 = none ∧
    GetModelInfo (InitPluginRegister MAX_MODELS exCfg [exVehTahoma] [] exHostBuiltin).models 1 =
      some ⟨ModelKind.vehicle, "tahoma", some 0, none⟩ ∧
    GetModelInfo
      (ShutdownPlugin (InitPluginRegister MAX_MODELS exCfg [exVehTahoma] [] exHostBuiltin)).models
      0 = none ∧
    GetModelInfo
      (ShutdownPlugin (InitPluginRegister MAX_MODELS exCfg [exVehTahoma] [] exHostBuiltin)).models
      1 = some ⟨ModelKind.vehicle, "tahoma", some 0, none⟩ := by
  refine ⟨by decide, by decide, by decide, ?_, ?_⟩
  · rw [ShutdownPlugin, ClearAllCustomModels, ClearAllCustomModelsBelow,
      ClearAllCustomModelsLoop_models]
    decide
  · rw [ShutdownPlugin, ClearAllCustomModels, ClearAllCustomModelsBelow,
      ClearAllCustomModelsLoop_models]
    decide

/-- C10 (amended): `ClearAllCustomModels` (loop bound `maxModels`, 4000 in
the source) empties exactly the slots below the bound whose model name begins
with "my_" or contains "infernus" and leaves every other slot as it was,
whether the slot was registered by the plugin or was in the host before;
`ShutdownPlugin` is this cleanup with the bound `MAX_MODELS`. -/
theorem C10_cleanup_removes_by_name (maxModels : Nat) (h : Host) (x : Nat) :
    GetModelInfo (ClearAllCustomModelsBelow maxModels h).models x =
      (if x < maxModels then
        (GetModelInfo h.models x).filter (fun mi => !isCustomName mi.name)
      else GetModelInfo h.models x) ∧
    (∀ sname : String, isCustomName sname = true ↔
      List.IsPrefix "my_".data sname.data ∨ List.IsInfix "infernus".data sname.data) ∧
    ShutdownPlugin h = ClearAllCustomModelsBelow MAX_MODELS h := by
  refine ⟨?_, isCustomName_iff, rfl⟩
  rw [ClearAllCustomModelsBelow, ClearAllCustomModelsLoop_models]
  simp

/-! ## Lemmas on the name lookup -/

theorem stricmpEq_iff (a b : String) :
    stricmpEq a b = true ↔ a.data.map Char.toLower = b.data.map Char.toLower := by
  simp [stricmpEq]

theorem stricmpEq_trans {a b c : String} (h1 : stricmpEq a b = true) (h2 : stricmpEq b c = true) :
    stricmpEq a c = true := by
  rw [stricmpEq_iff] at *
  exact h1.trans h2

theorem stricmpEq_symm {a b : String} (h1 : stricmpEq a b = true) : stricmpEq b a = true := by
  rw [stricmpEq_iff] at *
  exact h1.symm

theorem nameAt_cons_succ (x : Option ModelInfo) (xs : ModelTable) (name : String) (k : Nat) :
    nameAt (x :: xs) name (k + 1) = nameAt xs name k := rfl

theorem GetModelIndexFrom_spec (name : String) (t : ModelTable) (base : Nat) :
    (GetModelIndexFrom name t base = -1 ∧ ∀ j, nameAt t name j = false) ∨
    (∃ k : Nat, GetModelIndexFrom name t base = ((base + k : Nat) : Int) ∧
        nameAt t name k = true ∧ ∀ j, j < k → nameAt t name j = false) := by
  induction t generalizing base with
  | nil =>
    left
    exact ⟨rfl, fun j => by simp [nameAt, GetModelInfo_nil]⟩
  | cons x xs ih =>
    have step : ∀ (hx : nameAt (x :: xs) name 0 = false),
        (GetModelIndexFrom name xs (base + 1) = -1 ∧ ∀ j, nameAt (x :: xs) name j = false) ∨
        (∃ k : Nat, GetModelIndexFrom name xs (base + 1) = ((base + k : Nat) : Int) ∧
          nameAt (x :: xs) name k = true ∧ ∀ j, j < k → nameAt (x :: xs) name j = false) := by
      intro hx
      rcases ih (base + 1) with ⟨h1, h2⟩ | ⟨k, h1, h2, h3⟩
      · left
        refine ⟨h1, fun j => ?_⟩
        cases j with
        | zero => exact hx
        | succ j => rw [nameAt_cons_succ]; exact h2 j
      · right
        refine ⟨k + 1, ?_, ?_, fun j hj => ?_⟩
        · rw [h1]; congr 1; omega
        · rw [nameAt_cons_succ]; exact h2
        · cases j with
          | zero => exact hx
          | succ j => rw [nameAt_cons_succ]; exact h3 j (by omega)
    cases x with
    | none =>
      rw [GetModelIndexFrom]
      exact step (by simp [nameAt, GetModelInfo])
    | some m =>
      rw [GetModelIndexFrom]
      by_cases hm : stricmpEq m.name name = true
      · right
        refine ⟨0, by simp [hm], by simp [nameAt, GetModelInfo, hm], fun j hj => by omega⟩
      · simp only [hm]
        exact step (by simpa [nameAt, GetModelInfo] using hm)

theorem GetModelIndex_spec (t : ModelTable) (name : String) :
    (GetModelIndex t name = -1 ∧ ∀ j, nameAt t name j = false) ∨
    (∃ k : Nat, GetModelIndex t name = (k : Int) ∧
        nameAt t name k = true ∧ ∀ j, j < k → nameAt t name j = false) := by
  rcases GetModelIndexFrom_spec name t 0 with h | ⟨k, h1, h2⟩
  · exact Or.inl h
  · exact Or.inr ⟨k, by rw [GetModelIndex, h1]; simp, h2⟩

/-- The lookup answers `k` exactly when `k` is the first entry carrying the name. -/
theorem GetModelIndex_eq_iff (t : ModelTable) (name : String) (k : Nat) :
    GetModelIndex t name = (k : Int) ↔
      (nameAt t name k = true ∧ ∀ j, j < k → nameAt t name j = false) := by
  rcases GetModelIndex_spec t name with ⟨h1, h2⟩ | ⟨k1, h1, h2, h3⟩
  · constructor
    · intro h; rw [h1] at h; omega
    · rintro ⟨a, _⟩; rw [h2 k] at a; exact absurd a (by decide)
  · constructor
    · intro h
      rw [h1] at h
      have : k1 = k := by exact_mod_cast h
      subst this
      exact ⟨h2, h3⟩
    · rintro ⟨a, c⟩
      rw [h1]
      have : k1 = k := by
        rcases Nat.lt_trichotomy k1 k with h | h | h
        · rw [c k1 h] at h2; exact absurd h2 (by decide)
        · exact h
        · rw [h3 k h] at a; exact absurd a (by decide)
      rw [this]

/-- The lookup answers -1 exactly when no entry carries the name. -/
theorem GetModelIndex_eq_neg_one_iff (t : ModelTable) (name : String) :
    GetModelIndex t name = -1 ↔ ∀ j, nameAt t name j = false := by
  rcases GetModelIndex_spec t name with ⟨h1, h2⟩ | ⟨k1, h1, h2, _⟩
  · exact ⟨fun _ => h2, fun _ => h1⟩
  · constructor
    · intro h; rw [h1] at h; omega
    · intro h; rw [h k1] at h2; exact absurd h2 (by decide)

theorem GetModelIndex_neg_iff (t : ModelTable) (name : String) :
    GetModelIndex t name < 0 ↔ GetModelIndex t name = -1 := by
  rcases GetModelIndex_spec t name with ⟨h1, _⟩ | ⟨k1, h1, _⟩
  · rw [h1]; simp
  · rw [h1]; constructor <;> intro h <;> omega

theorem nameAt_AddModel (t : ModelTable) (i : Nat) (m : ModelInfo) (name : String) (j : Nat) :
    nameAt (AddModel t i m) name j = if j = i then stricmpEq m.name name else nameAt t name j := by
  unfold nameAt
  rw [GetModelInfo_AddModel]
  by_cases hji : j = i
  · simp [hji]
  · simp [hji]

/-- Storing a model at a free index makes a name that was absent resolve to
that index when the new model carries it, and leaves it absent otherwise. -/
theorem GetModelIndex_AddModel_absent (t : ModelTable) (i : Nat) (m : ModelInfo) (x : String)
    (hx : GetModelIndex t x = -1) :
    GetModelIndex (AddModel t i m) x = if stricmpEq m.name x then (i : Int) else -1 := by
  rw [GetModelIndex_eq_neg_one_iff] at hx
  split
  · next hm =>
    rw [GetModelIndex_eq_iff]
    refine ⟨by rw [nameAt_AddModel, if_pos rfl]; exact hm, fun j hj => ?_⟩
    rw [nameAt_AddModel, if_neg (by omega)]
    exact hx j
  · next hm =>
    rw [GetModelIndex_eq_neg_one_iff]
    intro j
    rw [nameAt_AddModel]
    split
    · simpa using hm
    · exact hx j

/-- Storing a model whose name differs from `x` at a free index does not move
the index `x` resolves to. -/
theorem GetModelIndex_AddModel_stable (t : ModelTable) (i : Nat) (m : ModelInfo) (x : String)
    (k : Nat) (hx : GetModelIndex t x = (k : Int)) (hfree : GetModelInfo t i = none)
    (hm : stricmpEq m.name x = false) :
    GetModelIndex (AddModel t i m) x = (k : Int) := by
  rw [GetModelIndex_eq_iff] at hx ⊢
  obtain ⟨h1, h2⟩ := hx
  have hki : k ≠ i := by
    intro hc
    rw [hc, nameAt, hfree] at h1
    simp at h1
  refine ⟨by rw [nameAt_AddModel, if_neg hki]; exact h1, fun j hj => ?_⟩
  rw [nameAt_AddModel]
  split
  · exact hm
  · exact h2 j hj

/-! ## Lemmas on the group member loops -/

theorem CarGroupMembers_eq_loop (maxModels : Nat) (cfg : HostCfg) (cat : List VehicleDef)
    (members : List String) (h : Host) :
    CarGroupMembers maxModels cfg cat h members =
      groupMemberLoop VehicleDef.modelName (RegisterVehicleModel maxModels cfg) cat h members := by
  induction members generalizing h with
  | nil => rfl
  | cons mn rest ih =>
    cases hf : List.find? (fun vd => stricmpEq (VehicleDef.modelName vd) mn) cat <;>
      simp only [CarGroupMembers, groupMemberLoop, ih, hf]

theorem PedGroupMembers_eq_loop (maxModels : Nat) (cfg : HostCfg) (cat : List PedDef)
    (members : List String) (h : Host) :
    PedGroupMembers maxModels cfg cat h members =
      groupMemberLoop PedDef.modelName (RegisterPedModel maxModels cfg) cat h members := by
  induction members generalizing h with
  | nil => rfl
  | cons mn rest ih =>
    cases hf : List.find? (fun pd => stricmpEq (PedDef.modelName pd) mn) cat <;>
      simp only [PedGroupMembers, groupMemberLoop, ih, hf]

/-- What the member loop needs from a registration function. -/
theorem RegisterVehicleModel_cases (maxModels : Nat) (cfg : HostCfg) (h : Host) (v : VehicleDef) :
    (FindFreeModelIndexBelow maxModels h.models = -1 ∧
      (RegisterVehicleModel maxModels cfg h v).2 = h) ∨
    (∃ (k : Nat) (m : ModelInfo), FindFreeModelIndexBelow maxModels h.models = (k : Int) ∧
      k < maxModels ∧ GetModelInfo h.models k = none ∧ m.name = v.modelName ∧
      (RegisterVehicleModel maxModels cfg h v).2.models = AddModel h.models k m) := by
  rcases FindFreeModelIndexBelow_spec maxModels h.models with ⟨h1, _⟩ | ⟨k, h1, h2, h3, _⟩
  · left
    exact ⟨h1, by rw [RegisterVehicleModel_full maxModels cfg h v h1]⟩
  · right
    obtain ⟨m, hm, _, _, t1⟩ := RegisterVehicleModel_free maxModels cfg h v k h1
    exact ⟨k, m, h1, h2, h3, hm, t1⟩

theorem RegisterPedModel_cases (maxModels : Nat) (cfg : HostCfg) (h : Host) (p : PedDef) :
    (FindFreeModelIndexBelow maxModels h.models = -1 ∧
      (RegisterPedModel maxModels cfg h p).2 = h) ∨
    (∃ (k : Nat) (m : ModelInfo), FindFreeModelIndexBelow maxModels h.models = (k : Int) ∧
      k < maxModels ∧ GetModelInfo h.models k = none ∧ m.name = p.modelName ∧
      (RegisterPedModel maxModels cfg h p).2.models = AddModel h.models k m) := by
  rcases FindFreeModelIndexBelow_spec maxModels h.models with ⟨h1, _⟩ | ⟨k, h1, h2, h3, _⟩
  · left
    exact ⟨h1, by rw [RegisterPedModel_full maxModels cfg h p h1]⟩
  · right
    obtain ⟨m, hm, _, _, t1⟩ := RegisterPedModel_free maxModels cfg h p k h1
    exact ⟨k, m, h1, h2, h3, hm, t1⟩

/-- On-demand registration of a catalog record for the absent member `mn`:
the member now resolves to the new index, names that resolved keep their
index, and a name resolves afterwards only if it did before or the new record
carries it. -/
theorem on_demand_step (t : ModelTable) (k : Nat) (m : ModelInfo) (mn : String)
    (hfree : GetModelInfo t k = none) (habs : GetModelIndex t mn = -1)
    (hm : stricmpEq m.name mn = true) :
    GetModelIndex (AddModel t k m) mn = (k : Int) ∧
    (∀ x, 0 ≤ GetModelIndex t x → GetModelIndex (AddModel t k m) x = GetModelIndex t x) ∧
    (∀ x, 0 ≤ GetModelIndex (AddModel t k m) x →
      0 ≤ GetModelIndex t x ∨ stricmpEq m.name x = true) := by
  refine ⟨by rw [GetModelIndex_AddModel_absent t k m mn habs, if_pos hm], fun x hx => ?_,
    fun x hx => ?_⟩
  · rcases GetModelIndex_spec t x with ⟨h1, _⟩ | ⟨j, h1, h2, _⟩
    · rw [h1] at hx; omega
    · rw [h1]
      apply GetModelIndex_AddModel_stable t k m x j h1 hfree
      by_contra hc
      have hmx : stricmpEq m.name x = true := by simpa using hc
      rw [GetModelIndex_eq_neg_one_iff] at habs
      have hj := habs j
      unfold nameAt at h2 hj
      cases hg : GetModelInfo t j with
      | none => rw [hg] at h2; simp at h2
      | some m1 =>
        rw [hg] at h2 hj
        simp only at h2 hj
        have : stricmpEq m1.name mn = true :=
          stricmpEq_trans (stricmpEq_trans h2 (stricmpEq_symm hmx)) hm
        rw [this] at hj
        exact absurd hj (by decide)
  · rcases GetModelIndex_spec t x with ⟨h1, _⟩ | ⟨j, h1, _⟩
    · right
      rw [GetModelIndex_AddModel_absent t k m x h1] at hx
      by_contra hc
      rw [if_neg hc] at hx
      omega
    · left
      rw [h1]; omega

theorem resolvable_of_any {δ : Type} (nameOf : δ → String) (cat : List δ) (t : ModelTable)
    (x : String) (d : δ) (hd : d ∈ cat) (hx : stricmpEq (nameOf d) x = true) :
    resolvable nameOf cat t x = true := by
  unfold resolvable
  rw [Bool.or_eq_true]
  right
  rw [List.any_eq_true]
  exact ⟨d, hd, hx⟩

theorem groupMemberLoop_present {δ : Type} (nameOf : δ → String) (reg : Host → δ → Int × Host)
    (cat : List δ) (h : Host) (mn : String) (rest : List String)
    (hp : 0 ≤ GetModelIndex h.models mn) :
    groupMemberLoop nameOf reg cat h (mn :: rest) =
      (GetModelIndex h.models mn :: (groupMemberLoop nameOf reg cat h rest).1,
        (groupMemberLoop nameOf reg cat h rest).2) := by
  have hn : ¬ GetModelIndex h.models mn < 0 := by omega
  simp only [groupMemberLoop, hn, if_false, ge_iff_le, hp, if_true]

theorem groupMemberLoop_absent_none {δ : Type} (nameOf : δ → String)
    (reg : Host → δ → Int × Host) (cat : List δ) (h : Host) (mn : String) (rest : List String)
    (ha : GetModelIndex h.models mn = -1)
    (hf : cat.find? (fun d => stricmpEq (nameOf d) mn) = none) :
    groupMemberLoop nameOf reg cat h (mn :: rest) =
      ((groupMemberLoop nameOf reg cat h rest).1, (groupMemberLoop nameOf reg cat h rest).2) := by
  simp [groupMemberLoop, ha, hf]

theorem groupMemberLoop_absent_some {δ : Type} (nameOf : δ → String)
    (reg : Host → δ → Int × Host) (cat : List δ) (h : Host) (mn : String) (rest : List String)
    (d : δ) (k : Nat) (ha : GetModelIndex h.models mn = -1)
    (hf : cat.find? (fun d => stricmpEq (nameOf d) mn) = some d)
    (hk : GetModelIndex (reg h d).2.models mn = (k : Int)) :
    groupMemberLoop nameOf reg cat h (mn :: rest) =
      ((k : Int) :: (groupMemberLoop nameOf reg cat (reg h d).2 rest).1,
        (groupMemberLoop nameOf reg cat (reg h d).2 rest).2) := by
  simp [groupMemberLoop, ha, hf, hk]

/-- The member loop, given as many free indices as there are member names. -/
theorem groupMemberLoop_spec {δ : Type} (maxModels : Nat) (nameOf : δ → String)
    (reg : Host → δ → Int × Host) (cat : List δ)
    (hreg : ∀ (h : Host) (d : δ),
      (FindFreeModelIndexBelow maxModels h.models = -1 ∧ (reg h d).2 = h) ∨
      (∃ (k : Nat) (m : ModelInfo), FindFreeModelIndexBelow maxModels h.models = (k : Int) ∧
        k < maxModels ∧ GetModelInfo h.models k = none ∧ m.name = nameOf d ∧
        (reg h d).2.models = AddModel h.models k m))
    (members : List String) :
    ∀ (h : Host) (F : List Nat), F.Nodup → members.length ≤ F.length →
      (∀ i, i ∈ F → i < maxModels ∧ GetModelInfo h.models i = none) →
      (groupMemberLoop nameOf reg cat h members).1 =
        (members.filter (resolvable nameOf cat h.models)).map
          (fun mn => GetModelIndex (groupMemberLoop nameOf reg cat h members).2.models mn) ∧
      (∀ id, id ∈ (groupMemberLoop nameOf reg cat h members).1 → 0 ≤ id) ∧
      (∀ x, 0 ≤ GetModelIndex h.models x →
        GetModelIndex (groupMemberLoop nameOf reg cat h members).2.models x =
          GetModelIndex h.models x) ∧
      (∀ x, 0 ≤ GetModelIndex (groupMemberLoop nameOf reg cat h members).2.models x →
        resolvable nameOf cat h.models x = true) := by
  induction members with
  | nil =>
    intro h F _ _ _
    refine ⟨rfl, fun id hid => ?_, fun x _ => rfl, fun x hx => ?_⟩
    · simp [groupMemberLoop] at hid
    · simp only [groupMemberLoop] at hx
      simp [resolvable, hx]
  | cons mn rest ih =>
    intro h F hnd hlen hF
    have hlen1 : rest.length + 1 ≤ F.length := by simpa using hlen
    rcases GetModelIndex_spec h.models mn with ⟨habs, _⟩ | ⟨j, hj, _⟩
    · cases hf : cat.find? (fun d => stricmpEq (nameOf d) mn) with
      | none =>
        rw [groupMemberLoop_absent_none nameOf reg cat h mn rest habs hf]
        have hres : resolvable nameOf cat h.models mn = false := by
          rw [List.find?_eq_none] at hf
          simp only [resolvable, habs, Bool.or_eq_false_iff, decide_eq_false_iff_not]
          refine ⟨by omega, ?_⟩
          rw [← Bool.not_eq_true, List.any_eq_true]
          rintro ⟨d, hd, hdx⟩
          exact hf d hd hdx
        obtain ⟨ia, ib, ic, idd⟩ := ih h F hnd (by omega) hF
        refine ⟨?_, ib, ic, idd⟩
        rw [List.filter_cons_of_neg (by simp [hres])]
        exact ia
      | some d =>
        have hd : stricmpEq (nameOf d) mn = true := by
          have := List.find?_some hf
          simpa using this
        have hmem : d ∈ cat := List.mem_of_find?_eq_some hf
        rcases hreg h d with ⟨hfull, _⟩ | ⟨k, m, _, _, hkfree, hmn, hmodels⟩
        · exfalso
          cases F with
          | nil => simp at hlen1
          | cons f fs =>
            have := hF f (List.mem_cons_self f fs)
            exact (FindFreeModelIndexBelow_eq_neg_one_iff maxModels h.models).1 hfull f this.1 this.2
        · obtain ⟨s1, s2, s3⟩ :=
            on_demand_step h.models k m mn hkfree habs (by rw [hmn]; exact hd)
          rw [← hmodels] at s1 s2 s3
          rw [groupMemberLoop_absent_some nameOf reg cat h mn rest d k habs hf s1]
          have hF1 : ∀ i, i ∈ F.erase k →
              i < maxModels ∧ GetModelInfo (reg h d).2.models i = none := by
            intro i hi
            have hik := (List.Nodup.mem_erase_iff hnd).1 hi
            rw [hmodels, GetModelInfo_AddModel, if_neg hik.1]
            exact hF i hik.2
          have hlenF : rest.length ≤ (F.erase k).length := by
            rw [List.length_erase]
            split <;> omega
          obtain ⟨ia, ib, ic, idd⟩ := ih (reg h d).2 (F.erase k) (hnd.erase k) hlenF hF1
          have hres_imp : ∀ x, resolvable nameOf cat (reg h d).2.models x = true →
              resolvable nameOf cat h.models x = true := by
            intro x hx
            simp only [resolvable, Bool.or_eq_true, decide_eq_true_eq] at hx
            rcases hx with hx | hx
            · rcases s3 x hx with h3 | h3
              · simp [resolvable, h3]
              · exact resolvable_of_any nameOf cat h.models x d hmem (by rw [← hmn]; exact h3)
            · simp [resolvable, hx]
          have hres_eq : resolvable nameOf cat (reg h d).2.models =
              resolvable nameOf cat h.models := by
            funext x
            rw [Bool.eq_iff_iff]
            refine ⟨hres_imp x, fun hx => ?_⟩
            simp only [resolvable, Bool.or_eq_true, decide_eq_true_eq] at hx
            rcases hx with hx | hx
            · simp [resolvable, s2 x hx, hx]
            · simp [resolvable, hx]
          have hk0 : (0 : Int) ≤ GetModelIndex (reg h d).2.models mn := by rw [s1]; omega
          have hresmn : resolvable nameOf cat h.models mn = true :=
            resolvable_of_any nameOf cat h.models mn d hmem hd
          refine ⟨?_, ?_, ?_, ?_⟩
          · rw [List.filter_cons_of_pos hresmn, List.map_cons]
            simp only
            rw [ic mn hk0, s1, ia, hres_eq]
          · intro id hid
            rcases List.mem_cons.1 hid with rfl | hid
            · omega
            · exact ib id hid
          · intro x hx
            simp only
            rw [ic x (by rw [s2 x hx]; exact hx), s2 x hx]
          · intro x hx
            exact hres_imp x (idd x hx)
    · have hp : 0 ≤ GetModelIndex h.models mn := by rw [hj]; omega
      rw [groupMemberLoop_present nameOf reg cat h mn rest hp]
      obtain ⟨ia, ib, ic, idd⟩ := ih h F hnd (by omega) hF
      have hresmn : resolvable nameOf cat h.models mn = true := by
        simp [resolvable, hp]
      refine ⟨?_, ?_, ic, idd⟩
      · rw [List.filter_cons_of_pos hresmn, List.map_cons]
        simp only
        rw [ic mn hp, ← ia]
      · intro id hid
        rcases List.mem_cons.1 hid with rfl | hid
        · exact hp
        · exact ib id hid

/-- C7: given at least as many free indices below the bound as there are member
names, the ids the member loop of `RegisterCarGroups` puts in the group are, in
request order, the indices at which the final model table resolves those member
names that were already in the table or equal a catalog name up to case; names
that are neither contribute nothing.  All ids are valid (non-negative), a name
that resolved at the start keeps its index, and nothing resolves at the end
that was not resolvable at the start.  The same holds for the loop of
`RegisterPedGroups`.  With catalog `{alpha}`, an empty table and the request
`[alpha, beta]` the group is exactly `[0]`, alpha's index, and beta stays
unregistered. -/
theorem C7_group_members_resolved_in_order (maxModels : Nat) (cfg : HostCfg)
    (g_vehicles : List VehicleDef) (g_peds : List PedDef) (h : Host) (members : List String)
    (F : List Nat) (hnd : F.Nodup) (hlen : members.length ≤ F.length)
    (hF : ∀ i, i ∈ F → i < maxModels ∧ GetModelInfo h.models i = none) :
    ((CarGroupMembers maxModels cfg g_vehicles h members).1 =
        (members.filter (resolvable VehicleDef.modelName g_vehicles h.models)).map
          (fun mn => GetModelIndex (CarGroupMembers maxModels cfg g_vehicles h members).2.models mn) ∧
      (∀ id, id ∈ (CarGroupMembers maxModels cfg g_vehicles h members).1 → 0 ≤ id) ∧
      (∀ x, 0 ≤ GetModelIndex h.models x →
        GetModelIndex (CarGroupMembers maxModels cfg g_vehicles h members).2.models x =
          GetModelIndex h.models x) ∧
      (∀ x, 0 ≤ GetModelIndex (CarGroupMembers maxModels cfg g_vehicles h members).2.models x →
        resolvable VehicleDef.modelName g_vehicles h.models x = true)) ∧
    ((PedGroupMembers maxModels cfg g_peds h members).1 =
        (members.filter (resolvable PedDef.modelName g_peds h.models)).map
          (fun pn => GetModelIndex (PedGroupMembers maxModels cfg g_peds h members).2.models pn) ∧
      (∀ id, id ∈ (PedGroupMembers maxModels cfg g_peds h members).1 → 0 ≤ id) ∧
      (∀ x, 0 ≤ GetModelIndex h.models x →
        GetModelIndex (PedGroupMembers maxModels cfg g_peds h members).2.models x =
          GetModelIndex h.models x) ∧
      (∀ x, 0 ≤ GetModelIndex (PedGroupMembers maxModels cfg g_peds h members).2.models x →
        resolvable PedDef.modelName g_peds h.models x = true)) ∧
    ((CarGroupMembers MAX_MODELS exCfg [exVehAlpha] exHost ["alpha", "beta"]).1 = [0] ∧
      GetModelIndex
        (CarGroupMembers MAX_MODELS exCfg [exVehAlpha] exHost ["alpha", "beta"]).2.models "alpha"
        = 0 ∧
      GetModelIndex
        (CarGroupMembers MAX_MODELS exCfg [exVehAlpha] exHost ["alpha", "beta"]).2.models "beta"
        = -1) ∧
    ((PedGroupMembers MAX_MODELS exCfg [exPedAlpha] exHost ["alpha", "beta"]).1 = [0] ∧
      GetModelIndex
        (PedGroupMembers MAX_MODELS exCfg [exPedAlpha] exHost ["alpha", "beta"]).2.models "alpha"
        = 0 ∧
      GetModelIndex
        (PedGroupMembers MAX_MODELS exCfg [exPedAlpha] exHost ["alpha", "beta"]).2.models "beta"
        = -1) := by
  refine ⟨?_, ?_, by decide, by decide⟩
  · rw [CarGroupMembers_eq_loop]
    exact groupMemberLoop_spec maxModels VehicleDef.modelName (RegisterVehicleModel maxModels cfg)
      g_vehicles (RegisterVehicleModel_cases maxModels cfg) members h F hnd hlen hF
  · rw [PedGroupMembers_eq_loop]
    exact groupMemberLoop_spec maxModels PedDef.modelName (RegisterPedModel maxModels cfg)
      g_peds (RegisterPedModel_cases maxModels cfg) members h F hnd hlen hF

/-- C7 witness: catalog `{alpha}`, an empty table with the free indices 0 and
1, and the request `[ALPHA, beta, alpha]`: both spellings of alpha resolve to
the one slot registered on demand. -/
theorem C7_group_members_resolved_in_order_witness :
    (CarGroupMembers MAX_MODELS exCfg [exVehAlpha] exHost ["ALPHA", "beta", "alpha"]).1 =
        (["ALPHA", "beta", "alpha"].filter
          (resolvable VehicleDef.modelName [exVehAlpha] exHost.models)).map
          (fun mn => GetModelIndex
            (CarGroupMembers MAX_MODELS exCfg [exVehAlpha] exHost
              ["ALPHA", "beta", "alpha"]).2.models mn) ∧
    (CarGroupMembers MAX_MODELS exCfg [exVehAlpha] exHost ["ALPHA", "beta", "alpha"]).1 = [0, 0] :=
  ⟨(C7_group_members_resolved_in_order MAX_MODELS exCfg [exVehAlpha] [exPedAlpha] exHost
      ["ALPHA", "beta", "alpha"] [0, 1, 2] (by decide) (by decide) (by decide)).1.1,
    by decide⟩

/-! ## Lemmas on the entity audio engine -/

/-- One tick, seen through the sampled state `s`: the log of requested names
restricted to a channel is that channel's edge action, if any. -/
theorem UpdateTrainSoundsWith_log_filter (c : Channel) (st s : TrainSoundState) :
    (let a1 : List String := if s.engineOn ≠ st.engineOn then
        (if s.engineOn then [] ++ ["engine_start"] else [] ++ ["engine_stop"]) else []
     let a2 := if s.braking ≠ st.braking then
        (if s.braking then a1 ++ ["brake_start"] else a1 ++ ["brake_release"]) else a1
     let a3 := if s.accelerating ≠ st.accelerating then
        (if s.accelerating then a2 ++ ["accelerate"] else a2 ++ ["engine_idle"]) else a2
     let a4 := if s.doorsOpen ≠ st.doorsOpen then
        (if s.doorsOpen then a3 ++ ["door_open"] else a3 ++ ["door_close"]) else a3
     a4).filter c.owns = edgeActions c (c.value st) [c.value s] := by
  rcases st with ⟨e0, b0, a0, d0⟩
  rcases s with ⟨e1, b1, a1, d1⟩
  cases c <;> cases e0 <;> cases e1 <;> cases b0 <;> cases b1 <;> cases a0 <;> cases a1 <;>
    cases d0 <;> cases d1 <;> decide

theorem tickRequests_filter (c : Channel) (st : TrainSoundState) (v : CVehicle) :
    (tickRequests st (some v)).1.filter c.owns =
        edgeActions c (c.value st) [c.value (sampleChannels v)] ∧
      (tickRequests st (some v)).2 = sampleChannels v :=
  ⟨UpdateTrainSoundsWith_log_filter c st (sampleChannels v), rfl⟩

theorem edgeActions_cons (c : Channel) (prev b : Bool) (bs : List Bool) :
    edgeActions c prev (b :: bs) = edgeActions c prev [b] ++ edgeActions c b bs := by
  simp only [edgeActions]
  split <;> simp

theorem runTicks_filter (c : Channel) (vs : List CVehicle) (st : TrainSoundState) :
    (runTicks st vs).1.filter c.owns =
      edgeActions c (c.value st) (vs.map (fun v => c.value (sampleChannels v))) := by
  induction vs generalizing st with
  | nil => rfl
  | cons v vs ih =>
    obtain ⟨h1, h2⟩ := tickRequests_filter c st v
    rw [runTicks, List.map_cons, edgeActions_cons]
    simp only [List.filter_append]
    rw [h1, ih, h2]

/-- The effect of a tick on any audio state is the fold of `play` over the
names the tick requests. -/
theorem UpdateTrainSoundsWith_eq_foldl {α : Type} (play : α → String → α) (a : α)
    (st : TrainSoundState) (veh : Option CVehicle) :
    UpdateTrainSoundsWith play a st veh =
      ((tickRequests st veh).1.foldl play a, (tickRequests st veh).2) := by
  cases veh with
  | none => rfl
  | some v =>
    simp only [tickRequests, UpdateTrainSoundsWith]
    generalize sampleChannels v = s
    rcases st with ⟨e0, b0, a0, d0⟩
    rcases s with ⟨e1, b1, a1, d1⟩
    cases e0 <;> cases e1 <;> cases b0 <;> cases b1 <;> cases a0 <;> cases a1 <;>
      cases d0 <;> cases d1 <;> exact rfl

theorem sampleChannels_exVehicle (b : Bool) : sampleChannels (exVehicle b) = ⟨b, b, b, b⟩ := by
  cases b
  · simp [sampleChannels, exVehicle]
  · simp [sampleChannels, exVehicle]
    norm_num

theorem samples_realised (c : Channel) (bs : List Bool) :
    (bs.map exVehicle).map (fun v => c.value (sampleChannels v)) = bs := by
  induction bs with
  | nil => rfl
  | cons b bs ih =>
    rw [List.map_cons, List.map_cons, ih, sampleChannels_exVehicle]
    cases c <;> rfl

/-- C3: for each channel, over any sequence `vs` of snapshots of an entity
whose stored state starts all-false, the names `UpdateTrainSounds` passes to
`PlayTrainSound` that belong to the channel are exactly one per position where
the channel's sample differs from the previous one (false before the first):
the on-action for a rise, the off-action for a fall, in tick order.  Every
boolean sequence is the sample sequence of some snapshots.  A tick whose four
samples equal the stored values requests nothing and changes no audio state;
in general a tick's effect is `PlayTrainSound` folded over its requests.  For
the samples false, false, true, true, false the channel's requests are its
on-action then its off-action. -/
theorem C3_edge_triggered_once_per_transition (c : Channel) (vs : List CVehicle) :
    (runTicks TrainSoundState.init vs).1.filter c.owns =
      edgeActions c false (vs.map (fun v => c.value (sampleChannels v))) ∧
    (∀ bs : List Bool, ∃ ws : List CVehicle,
      ws.map (fun v => c.value (sampleChannels v)) = bs) ∧
    (∀ (hash : String → Int) (loadSample : String → Int) (t : ModelTable) (a : AudioState)
      (st : TrainSoundState) (v : CVehicle), sampleChannels v = st →
        tickRequests st (some v) = ([], st) ∧
        UpdateTrainSounds hash loadSample t a st (some v) = (a, st)) ∧
    (∀ (hash : String → Int) (loadSample : String → Int) (t : ModelTable) (a : AudioState)
      (st : TrainSoundState) (veh : Option CVehicle),
        UpdateTrainSounds hash loadSample t a st veh =
          ((tickRequests st veh).1.foldl
              (fun acc name => PlayTrainSound hash loadSample t acc veh name) a,
            (tickRequests st veh).2)) ∧
    (vs.map (fun v => c.value (sampleChannels v)) = [false, false, true, true, false] →
      (runTicks TrainSoundState.init vs).1.filter c.owns = [c.onAction, c.offAction]) := by
  have main := runTicks_filter c vs TrainSoundState.init
  have hinit : c.value TrainSoundState.init = false := by cases c <;> rfl
  rw [hinit] at main
  refine ⟨main, fun bs => ⟨bs.map exVehicle, samples_realised c bs⟩, ?_, ?_, ?_⟩
  · intro hash loadSample t a st v hv
    have hq : tickRequests st (some v) = ([], st) := by
      simp only [tickRequests, UpdateTrainSoundsWith]
      rw [hv]
      simp
    refine ⟨hq, ?_⟩
    rw [UpdateTrainSounds, UpdateTrainSoundsWith_eq_foldl, hq]
    rfl
  · intro hash loadSample t a st veh
    rw [UpdateTrainSounds, UpdateTrainSoundsWith_eq_foldl]
  · intro hs
    rw [main, hs]
    cases c <;> rfl

/-! ## Lemmas on the door animation -/

theorem f32ShiftLoop_spec (fuel sh n : Nat) (h0 : sh = 0 ∨ 2 ^ (23 + sh) ≤ n)
    (hn : n < 2 ^ (24 + sh + fuel)) :
    n < 2 ^ (24 + f32ShiftLoop fuel sh n) ∧
      (f32ShiftLoop fuel sh n = 0 ∨ 2 ^ (23 + f32ShiftLoop fuel sh n) ≤ n) := by
  induction fuel generalizing sh with
  | zero => exact ⟨by simpa [f32ShiftLoop] using hn, by simpa [f32ShiftLoop] using h0⟩
  | succ fuel ih =>
    rw [f32ShiftLoop]
    by_cases hlt : n < 2 ^ (24 + sh)
    · rw [if_pos hlt]
      exact ⟨hlt, h0⟩
    · rw [if_neg hlt]
      apply ih
      · right
        have : 23 + (sh + 1) = 24 + sh := by omega
        rw [this]
        omega
      · have : 24 + (sh + 1) + fuel = 24 + sh + (fuel + 1) := by omega
        rw [this]
        exact hn

theorem f32Shift_spec (n : Nat) (hn : n < 2 ^ 256) :
    n < 2 ^ (24 + f32Shift n) ∧ (f32Shift n = 0 ∨ 2 ^ (23 + f32Shift n) ≤ n) := by
  apply f32ShiftLoop_spec 254 0 n (Or.inl rfl)
  obtain ⟨k, hk⟩ : ∃ k, k = 24 + 0 + 254 := ⟨_, rfl⟩
  have hnk : n < 2 ^ k := lt_of_lt_of_le hn (Nat.pow_le_pow_right (by decide) (by omega))
  rw [hk] at hnk
  exact hnk

/-- The rounding in terms of the neighbours `L = q * 2^sh` and `L + 2^sh`. -/
theorem f32RoundNat_cases (n : Nat) :
    ∃ P L r : Nat, P = 2 ^ f32Shift n ∧ L = n / P * P ∧ n = L + r ∧ r < P ∧
      ((f32RoundNat n = L ∧ 2 * r ≤ P) ∨ (f32RoundNat n = L + P ∧ P ≤ 2 * r)) := by
  have hpos : 0 < 2 ^ f32Shift n := Nat.pos_pow_of_pos _ (by decide)
  have hdm := Nat.div_add_mod n (2 ^ f32Shift n)
  have hr := Nat.mod_lt n hpos
  refine ⟨2 ^ f32Shift n, n / 2 ^ f32Shift n * 2 ^ f32Shift n, n % 2 ^ f32Shift n, rfl, rfl,
    by rw [Nat.mul_comm]; exact hdm.symm, hr, ?_⟩
  unfold f32RoundNat
  simp only
  split
  · left; exact ⟨rfl, by omega⟩
  · split
    · right; exact ⟨by rw [Nat.add_mul, Nat.one_mul], by omega⟩
    · split
      · left; exact ⟨rfl, by omega⟩
      · right; exact ⟨by rw [Nat.add_mul, Nat.one_mul], by omega⟩

/-- No value with a 24-bit significand lies strictly between the neighbours. -/
theorem f32_no_value_between (n m e : Nat) (hn : n < 2 ^ 256) (hm : m < 2 ^ 24)
    (hsh : f32Shift n ≠ 0) :
    m * 2 ^ e ≤ n / 2 ^ f32Shift n * 2 ^ f32Shift n ∨
      n / 2 ^ f32Shift n * 2 ^ f32Shift n + 2 ^ f32Shift n ≤ m * 2 ^ e := by
  obtain ⟨_, hs⟩ := f32Shift_spec n hn
  have hbig : 2 ^ (23 + f32Shift n) ≤ n := by
    rcases hs with h | h
    · exact absurd h hsh
    · exact h
  have hpos : 0 < 2 ^ f32Shift n := Nat.pos_pow_of_pos _ (by decide)
  by_contra hcon
  push_neg at hcon
  obtain ⟨h1, h2⟩ := hcon
  have hq : 2 ^ 23 ≤ n / 2 ^ f32Shift n := by
    rw [Nat.le_div_iff_mul_le hpos, ← pow_add]
    exact hbig
  have hL : 2 ^ (23 + f32Shift n) ≤ n / 2 ^ f32Shift n * 2 ^ f32Shift n := by
    rw [pow_add]
    exact Nat.mul_le_mul_right _ hq
  have htl : 2 ^ (23 + f32Shift n) < m * 2 ^ e := lt_of_le_of_lt hL h1
  have hte : m * 2 ^ e < 2 ^ (24 + e) := by
    rw [pow_add]
    exact Nat.mul_lt_mul_of_pos_right hm (Nat.pos_pow_of_pos _ (by decide))
  have hexp : 23 + f32Shift n < 24 + e := by
    by_contra hc
    push_neg at hc
    have := Nat.pow_le_pow_right (by decide : 0 < 2) hc
    omega
  have hk : m * 2 ^ e = m * 2 ^ (e - f32Shift n) * 2 ^ f32Shift n := by
    rw [mul_assoc, ← pow_add]
    congr 2
    omega
  rw [hk] at h1 h2
  have h2' : m * 2 ^ (e - f32Shift n) * 2 ^ f32Shift n <
      (n / 2 ^ f32Shift n + 1) * 2 ^ f32Shift n := by
    rw [Nat.add_mul, Nat.one_mul]
    exact h2
  have hk1 := Nat.lt_of_mul_lt_mul_right h1
  have hk2 := Nat.lt_of_mul_lt_mul_right h2'
  omega

/-- Nearest: no value with a 24-bit significand is closer to `n` than its rounding. -/
theorem f32RoundNat_nearest (n m e : Nat) (hn : n < 2 ^ 256) (hm : m < 2 ^ 24) :
    |(f32RoundNat n : Int) - n| ≤ |((m * 2 ^ e : Nat) : Int) - n| := by
  obtain ⟨P, L, r, hP, hL, hnr, hr, hround⟩ := f32RoundNat_cases n
  by_cases hsh : f32Shift n = 0
  · have hP1 : P = 1 := by rw [hP, hsh]; rfl
    have : f32RoundNat n = n := by
      rcases hround with ⟨h, _⟩ | ⟨h, h2⟩ <;> omega
    rw [this]
    simp
  · have hout := f32_no_value_between n m e hn hm hsh
    rw [← hP, ← hL] at hout
    generalize m * 2 ^ e = t at hout ⊢
    rw [abs_le]
    rcases hround with ⟨h, h2⟩ | ⟨h, h2⟩ <;> rcases hout with ho | ho
    · rw [abs_sub_comm ((t : Int)), abs_of_nonneg (by omega)]
      constructor <;> omega
    · rw [abs_of_nonneg (by omega)]
      constructor <;> omega
    · rw [abs_sub_comm ((t : Int)), abs_of_nonneg (by omega)]
      constructor <;> omega
    · rw [abs_of_nonneg (by omega)]
      constructor <;> omega

theorem f32RoundNat_zero : f32RoundNat 0 = 0 := by decide

/-- Rounding keeps a 24-bit significand. -/
theorem f32RoundNat_isValue (n : Nat) (hn : n < 2 ^ 256) :
    ∃ m e : Nat, m < 2 ^ 24 ∧ f32RoundNat n = m * 2 ^ e := by
  obtain ⟨hlt, _⟩ := f32Shift_spec n hn
  obtain ⟨P, L, r, hP, hL, hnr, hr, hround⟩ := f32RoundNat_cases n
  have hpos : 0 < 2 ^ f32Shift n := Nat.pos_pow_of_pos _ (by decide)
  have hq : n / 2 ^ f32Shift n < 2 ^ 24 := by
    rw [Nat.div_lt_iff_lt_mul hpos, ← pow_add]
    exact hlt
  rcases hround with ⟨h, _⟩ | ⟨h, _⟩
  · exact ⟨n / 2 ^ f32Shift n, f32Shift n, hq, by rw [h, hL, hP]⟩
  · by_cases hc : n / 2 ^ f32Shift n + 1 < 2 ^ 24
    · refine ⟨n / 2 ^ f32Shift n + 1, f32Shift n, hc, ?_⟩
      rw [h, hL, hP, Nat.add_mul, Nat.one_mul]
    · have hq1 : n / 2 ^ f32Shift n + 1 = 2 ^ 24 := by omega
      refine ⟨2 ^ 23, f32Shift n + 1, by decide, ?_⟩
      rw [h, hL, hP, ← Nat.succ_mul, Nat.succ_eq_add_one, hq1]
      ring

/-- Half-unit error bound below 2: at most 2^-24, that is 2^125 units. -/
theorem f32RoundNat_error (n : Nat) (hn : n < 2 ^ 150) :
    2 * |(f32RoundNat n : Int) - n| ≤ 2 ^ 126 := by
  have hn2 : n < 2 ^ 256 := lt_of_lt_of_le hn (Nat.pow_le_pow_right (by decide) (by decide))
  obtain ⟨_, hs⟩ := f32Shift_spec n hn2
  obtain ⟨P, L, r, hP, hL, hnr, hr, hround⟩ := f32RoundNat_cases n
  have hPle : P ≤ 2 ^ 126 := by
    rw [hP]
    apply Nat.pow_le_pow_right (by decide)
    rcases hs with h | h
    · omega
    · by_contra hc
      push_neg at hc
      have : 2 ^ 150 ≤ 2 ^ (23 + f32Shift n) := Nat.pow_le_pow_right (by decide) (by omega)
      omega
  have hPle' : (P : Int) ≤ 2 ^ 126 := by exact_mod_cast hPle
  rcases hround with ⟨h, h2⟩ | ⟨h, h2⟩
  · rw [h, abs_sub_comm, abs_of_nonneg (by omega)]
    omega
  · rw [h, abs_of_nonneg (by omega)]
    push_cast
    omega

theorem isF32_one : isF32 F32_ONE :=
  ⟨1, 149, by decide, by simp [F32_ONE, Int.natAbs_pow]⟩

theorem isF32_zero : isF32 0 := ⟨0, 0, by decide, by decide⟩

theorem f32Round_nonneg (z : Int) (hz : 0 ≤ z) : 0 ≤ f32Round z := by
  rw [f32Round, if_pos hz]
  exact Int.natCast_nonneg _

theorem f32Round_nonpos (z : Int) (hz : z ≤ 0) : f32Round z ≤ 0 := by
  by_cases h0 : 0 ≤ z
  · have : z = 0 := by omega
    subst this
    simp [f32Round, f32RoundNat_zero]
  · rw [f32Round, if_neg h0]
    have := Int.natCast_nonneg (f32RoundNat (-z).toNat)
    omega

/-- Nearest, on signed values: no binary32 value is closer to `z` than `f32Round z`. -/
theorem f32Round_nearest (z t : Int) (hz : |z| < 2 ^ 256) (ht : isF32 t) :
    |f32Round z - z| ≤ |t - z| := by
  obtain ⟨m, e, hm, hte⟩ := ht
  have hzb := abs_lt.1 hz
  by_cases h0 : 0 ≤ z
  · have hn : z.toNat < 2 ^ 256 := by
      have : (z.toNat : Int) < 2 ^ 256 := by rw [Int.toNat_of_nonneg h0]; exact hzb.2
      exact_mod_cast this
    have hzn : (z.toNat : Int) = z := Int.toNat_of_nonneg h0
    rw [f32Round, if_pos h0]
    by_cases ht0 : 0 ≤ t
    · have := f32RoundNat_nearest z.toNat m e hn hm
      rw [← hte, Int.natCast_natAbs, abs_of_nonneg ht0, hzn] at this
      exact this
    · have := f32RoundNat_nearest z.toNat 0 0 hn (by decide)
      rw [hzn] at this
      refine le_trans this ?_
      rw [abs_sub_comm, abs_sub_comm t]
      simp only [Nat.zero_mul, Nat.cast_zero, sub_zero]
      rw [abs_of_nonneg h0, abs_of_nonneg (by omega)]
      omega
  · have hneg : 0 ≤ -z := by omega
    have hn : (-z).toNat < 2 ^ 256 := by
      have : ((-z).toNat : Int) < 2 ^ 256 := by rw [Int.toNat_of_nonneg hneg]; omega
      exact_mod_cast this
    have hzn : ((-z).toNat : Int) = -z := Int.toNat_of_nonneg hneg
    rw [f32Round, if_neg h0]
    by_cases ht0 : t ≤ 0
    · have := f32RoundNat_nearest (-z).toNat m e hn hm
      rw [← hte, Int.natCast_natAbs, abs_of_nonpos ht0, hzn] at this
      have e1 : |-(f32RoundNat (-z).toNat : Int) - z| = |(f32RoundNat (-z).toNat : Int) - -z| := by
        rw [← abs_neg]; congr 1; ring
      have e2 : |t - z| = |-t - -z| := by
        rw [← abs_neg]; congr 1; ring
      rw [e1, e2]
      exact this
    · have := f32RoundNat_nearest (-z).toNat 0 0 hn (by decide)
      rw [hzn] at this
      have e1 : |-(f32RoundNat (-z).toNat : Int) - z| = |(f32RoundNat (-z).toNat : Int) - -z| := by
        rw [← abs_neg]; congr 1; ring
      rw [e1]
      refine le_trans this ?_
      simp only [Nat.zero_mul, Nat.cast_zero, zero_sub, neg_neg]
      rw [abs_of_neg (by omega), abs_of_nonneg (by omega)]
      omega

theorem f32Round_isF32 (z : Int) (hz : |z| < 2 ^ 256) : isF32 (f32Round z) := by
  have hzb := abs_lt.1 hz
  by_cases h0 : 0 ≤ z
  · have hn : z.toNat < 2 ^ 256 := by
      have : (z.toNat : Int) < 2 ^ 256 := by rw [Int.toNat_of_nonneg h0]; exact hzb.2
      exact_mod_cast this
    obtain ⟨m, e, hm, h⟩ := f32RoundNat_isValue z.toNat hn
    refine ⟨m, e, hm, ?_⟩
    rw [f32Round, if_pos h0, Int.natAbs_ofNat, h]
  · have hneg : 0 ≤ -z := by omega
    have hn : (-z).toNat < 2 ^ 256 := by
      have : ((-z).toNat : Int) < 2 ^ 256 := by rw [Int.toNat_of_nonneg hneg]; omega
      exact_mod_cast this
    obtain ⟨m, e, hm, h⟩ := f32RoundNat_isValue (-z).toNat hn
    refine ⟨m, e, hm, ?_⟩
    rw [f32Round, if_neg h0, Int.natAbs_neg, Int.natAbs_ofNat, h]

theorem f32Round_error (z : Int) (h0 : 0 ≤ z) (hz : z < 2 ^ 150) :
    2 * |f32Round z - z| ≤ 2 ^ 126 := by
  have hn : z.toNat < 2 ^ 150 := by
    have : (z.toNat : Int) < 2 ^ 150 := by rw [Int.toNat_of_nonneg h0]; exact hz
    exact_mod_cast this
  have := f32RoundNat_error z.toNat hn
  rw [Int.toNat_of_nonneg h0] at this
  rw [f32Round, if_pos h0]
  exact this

theorem updateDoor_opening (d : DoorState) (ho : d.opening = true) :
    updateDoor d =
      { d with progress := min F32_ONE (f32Round (d.progress + F32_TENTH)) } := by
  have e : (if f32Round (d.progress + F32_TENTH) > F32_ONE then F32_ONE
      else f32Round (d.progress + F32_TENTH)) =
      min F32_ONE (f32Round (d.progress + F32_TENTH)) := by
    rw [min_def]
    by_cases h : f32Round (d.progress + F32_TENTH) > F32_ONE
    · rw [if_pos h, if_pos (le_of_lt h)]
    · rw [if_neg h]
      by_cases h2 : F32_ONE ≤ f32Round (d.progress + F32_TENTH)
      · rw [if_pos h2]
        exact le_antisymm (not_lt.1 h) h2
      · rw [if_neg h2]
  simp only [updateDoor, ho, if_true, e]

theorem updateDoor_closing (d : DoorState) (ho : d.opening = false) (hc : d.closing = true) :
    updateDoor d =
      { d with progress := max 0 (f32Round (d.progress - F32_TENTH)) } := by
  have e : (if f32Round (d.progress - F32_TENTH) < 0 then 0
      else f32Round (d.progress - F32_TENTH)) =
      max 0 (f32Round (d.progress - F32_TENTH)) := by
    rw [max_def]
    by_cases h : f32Round (d.progress - F32_TENTH) < 0
    · rw [if_pos h, if_neg (not_le.2 h)]
    · rw [if_neg h, if_pos (not_lt.1 h)]
  simp only [updateDoor, ho, hc, Bool.false_eq_true, if_false, if_true, e]

theorem updateDoor_idle (d : DoorState) (ho : d.opening = false) (hc : d.closing = false) :
    updateDoor d = d := by
  simp [updateDoor, ho, hc]

/-- Rounding does not pass a binary32 value lying on the other side. -/
theorem f32Round_le_of_le (z t : Int) (hz : |z| < 2 ^ 256) (ht : isF32 t) (hzt : z ≤ t) :
    f32Round z ≤ t := by
  have h := f32Round_nearest z t hz ht
  rw [abs_of_nonneg (by omega : 0 ≤ t - z)] at h
  have := le_abs_self (f32Round z - z)
  omega

theorem f32Round_ge_of_ge (z t : Int) (hz : |z| < 2 ^ 256) (ht : isF32 t) (hzt : t ≤ z) :
    t ≤ f32Round z := by
  have h := f32Round_nearest z t hz ht
  rw [abs_sub_comm t, abs_of_nonneg (by omega : 0 ≤ z - t)] at h
  have := neg_abs_le (f32Round z - z)
  omega

set_option maxRecDepth 4096 in
theorem door_sum_bound (p : Int) (h0 : 0 ≤ p) (h1 : p ≤ F32_ONE) :
    |p + F32_TENTH| < 2 ^ 256 ∧ |p - F32_TENTH| < 2 ^ 256 ∧
      0 ≤ p + F32_TENTH ∧ p + F32_TENTH < 2 ^ 150 := by
  simp only [F32_ONE, F32_TENTH] at *
  refine ⟨?_, ?_, by omega, by omega⟩
  · rw [abs_lt]; constructor <;> omega
  · rw [abs_lt]; constructor <;> omega

/-- One pass on a binary32 progress in [0,1]. -/
theorem updateDoor_step (d : DoorState) (hf : isF32 d.progress) (h0 : 0 ≤ d.progress)
    (h1 : d.progress ≤ F32_ONE) :
    (0 ≤ (updateDoor d).progress ∧ (updateDoor d).progress ≤ F32_ONE ∧
      isF32 (updateDoor d).progress) ∧
    ((updateDoor d).opening = d.opening ∧ (updateDoor d).closing = d.closing) ∧
    (d.opening = true → d.progress ≤ (updateDoor d).progress) ∧
    (d.opening = false → d.closing = true → (updateDoor d).progress ≤ d.progress) := by
  obtain ⟨hb1, hb2, hs0, _⟩ := door_sum_bound d.progress h0 h1
  have hup := f32Round_ge_of_ge (d.progress + F32_TENTH) d.progress hb1 hf
    (by simp only [F32_TENTH]; omega)
  have hdown := f32Round_le_of_le (d.progress - F32_TENTH) d.progress hb2 hf
    (by simp only [F32_TENTH]; omega)
  have hdown1 := f32Round_le_of_le (d.progress - F32_TENTH) F32_ONE hb2 isF32_one
    (by simp only [F32_TENTH] at *; omega)
  have hr1 := f32Round_isF32 _ hb1
  have hr2 := f32Round_isF32 _ hb2
  by_cases ho : d.opening = true
  · rw [updateDoor_opening d ho]
    refine ⟨⟨?_, ?_, ?_⟩, ⟨rfl, rfl⟩, fun _ => ?_, fun hn => ?_⟩
    · exact le_min (by simp only [F32_ONE]; omega) (le_trans h0 hup)
    · exact min_le_left _ _
    · rcases min_choice F32_ONE (f32Round (d.progress + F32_TENTH)) with h | h
      · rw [h]; exact isF32_one
      · rw [h]; exact hr1
    · exact le_min h1 hup
    · rw [ho] at hn; exact absurd hn (by decide)
  · have ho' : d.opening = false := by simpa using ho
    by_cases hc : d.closing = true
    · rw [updateDoor_closing d ho' hc]
      refine ⟨⟨le_max_left _ _, max_le (by simp only [F32_ONE]; omega) hdown1, ?_⟩,
        ⟨rfl, rfl⟩, fun h => ?_, fun _ _ => max_le h0 hdown⟩
      · rcases max_choice (0 : Int) (f32Round (d.progress - F32_TENTH)) with h | h
        · rw [h]; exact isF32_zero
        · rw [h]; exact hr2
      · rw [ho'] at h; exact absurd h (by decide)
    · have hc' : d.closing = false := by simpa using hc
      rw [updateDoor_idle d ho' hc']
      exact ⟨⟨h0, h1, hf⟩, ⟨rfl, rfl⟩, fun _ => le_refl _, fun _ _ => le_refl _⟩

theorem f32Value_min (a b : Int) : f32Value (min a b) = min (f32Value a) (f32Value b) := by
  have hmono : ∀ x y : Int, x ≤ y → f32Value x ≤ f32Value y := by
    intro x y hxy
    unfold f32Value
    have : (x : ℚ) ≤ y := by exact_mod_cast hxy
    exact div_le_div_of_nonneg_right this (by positivity)
  rcases le_total a b with h | h
  · rw [min_eq_left h, min_eq_left (hmono a b h)]
  · rw [min_eq_right h, min_eq_right (hmono b a h)]

theorem f32Value_one : f32Value F32_ONE = 1 := by
  simp only [f32Value, F32_ONE]
  norm_num

theorem f32Value_tenth : f32Value F32_TENTH = 13421773 / 134217728 := by
  simp only [f32Value, F32_TENTH]
  norm_num

/-- The rounding error of one addition below 2, as a value: at most 2^-24. -/
theorem f32Round_value_error (z : Int) (h0 : 0 ≤ z) (hz : z < 2 ^ 150) :
    |f32Value (f32Round z) - f32Value z| ≤ 1 / 2 ^ 24 := by
  have hI := f32Round_error z h0 hz
  have hQ : (2 : ℚ) * |((f32Round z - z : Int) : ℚ)| ≤ 2 ^ 126 := by
    rw [← Int.cast_abs]
    exact_mod_cast hI
  have e : f32Value (f32Round z) - f32Value z = ((f32Round z - z : Int) : ℚ) / 2 ^ 149 := by
    simp only [f32Value]
    push_cast
    ring
  rw [e, abs_div, abs_of_pos (by positivity : (0 : ℚ) < 2 ^ 149), div_le_div_iff₀ (by positivity)
    (by positivity)]
  have h2 : (2 : ℚ) ^ 149 = 2 ^ 126 * 2 ^ 23 := by norm_num
  have h3 : (2 : ℚ) ^ 24 = 2 * 2 ^ 23 := by norm_num
  rw [h2, h3, one_mul]
  nlinarith [hQ, abs_nonneg ((f32Round z - z : Int) : ℚ)]

/-- One opening pass against one exact step of 1/10. -/
theorem updateDoor_value_step (d : DoorState) (ho : d.opening = true) (h0 : 0 ≤ d.progress)
    (h1 : d.progress ≤ F32_ONE) (g : ℚ) :
    |f32Value (updateDoor d).progress - min 1 (g + 1 / 10)| ≤
      |f32Value d.progress - g| + 1 / 2 ^ 23 := by
  obtain ⟨_, _, hs0, hs1⟩ := door_sum_bound d.progress h0 h1
  have herr := f32Round_value_error (d.progress + F32_TENTH) hs0 hs1
  have hsum : f32Value (d.progress + F32_TENTH) = f32Value d.progress + 13421773 / 134217728 := by
    rw [← f32Value_tenth]
    simp only [f32Value]
    push_cast
    ring
  rw [hsum] at herr
  rw [updateDoor_opening d ho]
  show |f32Value (min F32_ONE (f32Round (d.progress + F32_TENTH))) - min 1 (g + 1 / 10)| ≤ _
  rw [f32Value_min, f32Value_one]
  have hmin := abs_min_sub_min_le_max (1 : ℚ) (f32Value (f32Round (d.progress + F32_TENTH))) 1
    (g + 1 / 10)
  rw [sub_self, abs_zero, max_eq_right (abs_nonneg _)] at hmin
  refine le_trans hmin ?_
  have htri : f32Value (f32Round (d.progress + F32_TENTH)) - (g + 1 / 10) =
      (f32Value (f32Round (d.progress + F32_TENTH)) - (f32Value d.progress + 13421773 / 134217728))
        + ((f32Value d.progress - g) + (13421773 / 134217728 - 1 / 10)) := by ring
  rw [htri]
  refine le_trans (abs_add _ _) ?_
  refine le_trans (add_le_add herr (abs_add _ _)) ?_
  have hc : |(13421773 / 134217728 - 1 / 10 : ℚ)| = 1 / 671088640 := by norm_num [abs_of_pos]
  rw [hc]
  have : (1 : ℚ) / 2 ^ 24 + 1 / 671088640 ≤ 1 / 2 ^ 23 := by norm_num
  linarith

theorem updateDoor_iterate_inv (N : Nat) (d : DoorState) (ho : d.opening = true)
    (hf : isF32 d.progress) (h0 : 0 ≤ d.progress) (h1 : d.progress ≤ F32_ONE) :
    (updateDoor^[N] d).opening = true ∧ isF32 (updateDoor^[N] d).progress ∧
      0 ≤ (updateDoor^[N] d).progress ∧ (updateDoor^[N] d).progress ≤ F32_ONE := by
  induction N with
  | zero => exact ⟨ho, hf, h0, h1⟩
  | succ N ih =>
    obtain ⟨i1, i2, i3, i4⟩ := ih
    rw [Function.iterate_succ_apply']
    obtain ⟨⟨s1, s2, s3⟩, ⟨s4, _⟩, _, _⟩ := updateDoor_step _ i2 i3 i4
    exact ⟨s4.trans i1, s3, s1, s2⟩

theorem min_one_step (a : ℚ) (N : Nat) :
    min 1 (a + ((N + 1 : Nat) : ℚ) / 10) = min 1 (min 1 (a + (N : ℚ) / 10) + 1 / 10) := by
  push_cast
  rcases le_total (a + (N : ℚ) / 10) 1 with h | h
  · rw [min_eq_right h]
    congr 1
    ring
  · rw [min_eq_left h, min_eq_left (by linarith), min_eq_left (by norm_num)]

/-- After `N` opening passes the progress is within `N * 2^-23` of the exact
`min 1 (p + N/10)`. -/
theorem updateDoor_iterate_error (N : Nat) (d : DoorState) (ho : d.opening = true)
    (hf : isF32 d.progress) (h0 : 0 ≤ d.progress) (h1 : d.progress ≤ F32_ONE) :
    |f32Value (updateDoor^[N] d).progress - min 1 (f32Value d.progress + (N : ℚ) / 10)| ≤
      (N : ℚ) / 2 ^ 23 := by
  have hp1 : f32Value d.progress ≤ 1 := by
    rw [← f32Value_one]
    unfold f32Value
    have : (d.progress : ℚ) ≤ F32_ONE := by exact_mod_cast h1
    exact div_le_div_of_nonneg_right this (by positivity)
  induction N with
  | zero => simp [min_eq_right hp1]
  | succ N ih =>
    obtain ⟨i1, _, i3, i4⟩ := updateDoor_iterate_inv N d ho hf h0 h1
    rw [Function.iterate_succ_apply', min_one_step]
    refine le_trans (updateDoor_value_step _ i1 i3 i4 _) ?_
    push_cast
    have : ((N : ℚ) + 1) / 2 ^ 23 = (N : ℚ) / 2 ^ 23 + 1 / 2 ^ 23 := by ring
    rw [this]
    linarith

set_option maxRecDepth 8192 in
/-- C4 (as stated, refuted): a door at progress 1/2 with `opening` set has,
after three passes of the door update, the progress 6710887/8388608 and not
min(1, 1/2 + 3/10) = 4/5: every `+= 0.1f` rounds to binary32. -/
theorem C4_counterexample_three_passes_from_half :
    f32Value exDoor.progress = 1 / 2 ∧ exDoor.opening = true ∧
    (updateDoor^[3] exDoor).progress = 6710887 * 2 ^ 126 ∧
    f32Value (updateDoor^[3] exDoor).progress = 6710887 / 8388608 ∧
    f32Value (updateDoor^[3] exDoor).progress ≠
      min 1 (f32Value exDoor.progress + ((3 : Nat) : ℚ) / 10) := by
  have h3 : (updateDoor^[3] exDoor).progress = 6710887 * 2 ^ 126 := by decide
  have hv : f32Value (updateDoor^[3] exDoor).progress = 6710887 / 8388608 := by
    rw [h3]
    simp only [f32Value]
    norm_num
  have hh : f32Value exDoor.progress = 1 / 2 := by
    simp only [f32Value, exDoor]
    norm_num
  refine ⟨hh, rfl, h3, hv, ?_⟩
  rw [hv, hh]
  norm_num

/-- C4 (amended): for a door whose progress `p` is a binary32 value in [0,1],
one pass of the door update of `DoorLightThread` with `opening` set gives
`min 1 (fl (p + 0.1f))` and with only `closing` set `max 0 (fl (p - 0.1f))`,
`fl` being rounding to the nearest binary32 value and `0.1f` the number
13421773/134217728; so after `N` passes with `opening` set the progress is
within `N / 2^23` of `min 1 (p + N/10)`, which it need not equal.  For every
combination of the flags one pass keeps the progress a binary32 value in
[0,1] and leaves the flags alone; the progress does not fall while `opening`
is set, does not rise while only `closing` is set (`opening` wins when both
are set), and stays put when neither is set.  A thread step applies this
update to every door of the instance. -/
theorem C4_door_progress_binary32 (d : DoorState) (N : Nat) (hf : isF32 d.progress)
    (h0 : 0 ≤ d.progress) (h1 : d.progress ≤ F32_ONE) :
    (d.opening = true →
      (updateDoor d).progress = min F32_ONE (f32Round (d.progress + F32_TENTH))) ∧
    (d.opening = false → d.closing = true →
      (updateDoor d).progress = max 0 (f32Round (d.progress - F32_TENTH))) ∧
    (d.opening = true →
      |f32Value (updateDoor^[N] d).progress - min 1 (f32Value d.progress + (N : ℚ) / 10)| ≤
        (N : ℚ) / 2 ^ 23) ∧
    (0 ≤ (updateDoor d).progress ∧ (updateDoor d).progress ≤ F32_ONE ∧
      isF32 (updateDoor d).progress) ∧
    ((updateDoor d).opening = d.opening ∧ (updateDoor d).closing = d.closing) ∧
    (d.opening = true → d.progress ≤ (updateDoor d).progress) ∧
    (d.opening = false → d.closing = true → (updateDoor d).progress ≤ d.progress) ∧
    (d.opening = false → d.closing = false → updateDoor d = d) ∧
    (f32Value F32_ONE = 1 ∧ f32Value F32_TENTH = 13421773 / 134217728 ∧
      ∀ z t : Int, |z| < 2 ^ 256 → isF32 t →
        isF32 (f32Round z) ∧ |f32Round z - z| ≤ |t - z|) ∧
    (∀ (hash : String → Int) (loadSample : String → Int) (t : ModelTable) (a : AudioState)
      (st : TrainSoundState) (ti : TrainInstance),
      (DoorLightThreadStep hash loadSample t a st ti).1.doors = ti.doors.map updateDoor) := by
  obtain ⟨s1, s2, s3, s4⟩ := updateDoor_step d hf h0 h1
  refine ⟨fun ho => ?_, fun ho hc => ?_, fun ho => updateDoor_iterate_error N d ho hf h0 h1,
    s1, s2, s3, s4, updateDoor_idle d, ⟨f32Value_one, f32Value_tenth, fun z t hz ht =>
      ⟨f32Round_isF32 z hz, f32Round_nearest z t hz ht⟩⟩, fun _ _ _ _ _ _ => rfl⟩
  · rw [updateDoor_opening d ho]
  · rw [updateDoor_closing d ho hc]

/-- C4 witness: the half-open, opening door after three passes is within
3/2^23 of 4/5. -/
theorem C4_door_progress_binary32_witness :
    |f32Value (updateDoor^[3] exDoor).progress -
        min 1 (f32Value exDoor.progress + ((3 : Nat) : ℚ) / 10)| ≤ ((3 : Nat) : ℚ) / 2 ^ 23 :=
  (C4_door_progress_binary32 exDoor 3 ⟨1, 148, by decide, by simp [exDoor, Int.natAbs_pow]⟩
    (by norm_num [exDoor]) (by norm_num [exDoor, F32_ONE])).2.2.1 rfl

/-! ## Lemmas on the audio bank cache -/

theorem mapAt_found {κ β : Type} [DecidableEq κ] (dflt : β) (k : κ) (m : List (κ × β)) (v : β)
    (h : mapFind k m = some v) : mapAt dflt k m = (v, m) := by
  simp [mapAt, h]

/-- Result of `PlayTrainSound` when the chosen bank key is missing from the bank map. -/
theorem PlayTrainSound_no_bank (hash : String → Int) (loadSample : String → Int)
    (t : ModelTable) (a : AudioState) (v : CVehicle) (soundName : String)
    (h : mapFind (soundBankKey a.trainSounds (GetVehicleModelName t (some v))) a.trainSounds
      = none) :
    PlayTrainSound hash loadSample t a (some v) soundName = a := by
  simp [PlayTrainSound, h]

/-- Result of `PlayTrainSound` when the chosen bank key maps to `set`. -/
theorem PlayTrainSound_bank (hash : String → Int) (loadSample : String → Int)
    (t : ModelTable) (a : AudioState) (v : CVehicle) (soundName : String) (set : TrainSoundSet)
    (h : mapFind (soundBankKey a.trainSounds (GetVehicleModelName t (some v))) a.trainSounds
      = some set) :
    PlayTrainSound hash loadSample t a (some v) soundName =
      match mapFind soundName set.namedSounds with
      | none => a
      | some path => playResolved hash loadSample a soundName path := by
  simp only [PlayTrainSound, h, Option.isNone_some, Bool.false_eq_true, if_false,
    mapAt_found _ _ _ _ h]

/-- The tail of `PlayTrainSound` when the event's hash is not in the cache. -/
theorem playResolved_uncached (hash : String → Int) (loadSample : String → Int)
    (a : AudioState) (soundName path : String)
    (h : mapFind (hash soundName) a.registeredSamples = none) :
    playResolved hash loadSample a soundName path =
      { a with
        loadCalls := a.loadCalls ++ [path]
        registeredSamples := (hash soundName, loadSample path) :: a.registeredSamples
        playCalls := if 0 ≤ loadSample path then a.playCalls ++ [loadSample path]
          else a.playCalls } := by
  simp only [playResolved, RegisterWavAsSample, h, Option.isNone_none, if_true, mapAt, mapFind,
    ge_iff_le]
  split <;> rfl

/-- The tail of `PlayTrainSound` when the cache maps the event's hash to `id`. -/
theorem playResolved_cached (hash : String → Int) (loadSample : String → Int)
    (a : AudioState) (soundName path : String) (id : Int)
    (h : mapFind (hash soundName) a.registeredSamples = some id) :
    playResolved hash loadSample a soundName path =
      { a with playCalls := if 0 ≤ id then a.playCalls ++ [id] else a.playCalls } := by
  simp only [playResolved, RegisterWavAsSample, h, Option.isNone_some, Bool.false_eq_true,
    if_false, mapAt, ge_iff_le]
  split <;> rfl

theorem soundBankKey_model (banks : List (String × TrainSoundSet)) (modelName : String)
    (set : TrainSoundSet) (hne : modelName ≠ "") (hf : mapFind modelName banks = some set) :
    soundBankKey banks modelName = modelName := by
  simp [soundBankKey, hne, hf]

theorem soundBankKey_default (banks : List (String × TrainSoundSet)) (modelName : String)
    (h : modelName = "" ∨ mapFind modelName banks = none) :
    soundBankKey banks modelName = "default" := by
  rcases h with h | h <;> simp [soundBankKey, h]

theorem PlayTrainSound_trainSounds (hash : String → Int) (loadSample : String → Int)
    (t : ModelTable) (a : AudioState) (veh : Option CVehicle) (soundName : String) :
    (PlayTrainSound hash loadSample t a veh soundName).trainSounds = a.trainSounds := by
  cases veh with
  | none => rfl
  | some v =>
    cases hb : mapFind (soundBankKey a.trainSounds (GetVehicleModelName t (some v)))
        a.trainSounds with
    | none => rw [PlayTrainSound_no_bank hash loadSample t a v soundName hb]
    | some set =>
      rw [PlayTrainSound_bank hash loadSample t a v soundName set hb]
      cases mapFind soundName set.namedSounds with
      | none => rfl
      | some path =>
        show (playResolved hash loadSample a soundName path).trainSounds = a.trainSounds
        cases hc : mapFind (hash soundName) a.registeredSamples with
        | none => rw [playResolved_uncached hash loadSample a soundName path hc]
        | some id => rw [playResolved_cached hash loadSample a soundName path id hc]

/-- C5: for an event the resolved bank maps to `path`, starting from a sample
cache with no entry under the event's hash, when the first `LoadSample` answer
is a valid handle, two `PlayTrainSound` calls add exactly one `LoadSample`
call (for `path`, made by the first call) and exactly two `PlaySample` calls,
both with the handle that load returned. -/
theorem C5_play_twice_loads_once (hash : String → Int) (load1 load2 : String → Int)
    (t : ModelTable) (a : AudioState) (v : CVehicle) (soundName : String)
    (set : TrainSoundSet) (path : String)
    (hbank : mapFind (soundBankKey a.trainSounds (GetVehicleModelName t (some v)))
      a.trainSounds = some set)
    (hev : mapFind soundName set.namedSounds = some path)
    (hcache : mapFind (hash soundName) a.registeredSamples = none)
    (hok : 0 ≤ load1 path) :
    (PlayTrainSound hash load1 t a (some v) soundName).loadCalls = a.loadCalls ++ [path] ∧
    (PlayTrainSound hash load1 t a (some v) soundName).playCalls =
      a.playCalls ++ [load1 path] ∧
    (PlayTrainSound hash load2 t (PlayTrainSound hash load1 t a (some v) soundName) (some v)
      soundName).loadCalls = a.loadCalls ++ [path] ∧
    (PlayTrainSound hash load2 t (PlayTrainSound hash load1 t a (some v) soundName) (some v)
      soundName).playCalls = a.playCalls ++ [load1 path, load1 path] := by
  have e1 : PlayTrainSound hash load1 t a (some v) soundName =
      { a with
        loadCalls := a.loadCalls ++ [path]
        registeredSamples := (hash soundName, load1 path) :: a.registeredSamples
        playCalls := a.playCalls ++ [load1 path] } := by
    rw [PlayTrainSound_bank hash load1 t a v soundName set hbank, hev]
    simp only
    rw [playResolved_uncached hash load1 a soundName path hcache, if_pos hok]
  have e2 := PlayTrainSound_bank hash load2 t
    { a with
      loadCalls := a.loadCalls ++ [path]
      registeredSamples := (hash soundName, load1 path) :: a.registeredSamples
      playCalls := a.playCalls ++ [load1 path] } v soundName set hbank
  rw [hev] at e2
  simp only at e2
  rw [playResolved_cached hash load2 _ soundName path (load1 path) (by simp [mapFind]),
    if_pos hok] at e2
  rw [e1, e2]
  simp

/-- C5 witness: the default bank with `start`, an empty cache, a load that
answers handle 7. -/
theorem C5_play_twice_loads_once_witness :
    (PlayTrainSound exHash exLoadOk exModelsUnknown exAudio (some (exVehicle false))
      "start").loadCalls = exAudio.loadCalls ++ ["pathA"] ∧
    (PlayTrainSound exHash exLoadOk exModelsUnknown exAudio (some (exVehicle false))
      "start").playCalls = exAudio.playCalls ++ [exLoadOk "pathA"] ∧
    (PlayTrainSound exHash exLoadFail exModelsUnknown
      (PlayTrainSound exHash exLoadOk exModelsUnknown exAudio (some (exVehicle false)) "start")
      (some (exVehicle false)) "start").loadCalls = exAudio.loadCalls ++ ["pathA"] ∧
    (PlayTrainSound exHash exLoadFail exModelsUnknown
      (PlayTrainSound exHash exLoadOk exModelsUnknown exAudio (some (exVehicle false)) "start")
      (some (exVehicle false)) "start").playCalls =
      exAudio.playCalls ++ [exLoadOk "pathA", exLoadOk "pathA"] :=
  C5_play_twice_loads_once exHash exLoadOk exLoadFail exModelsUnknown exAudio (exVehicle false)
    "start" ⟨"base/", [("start", "pathA")]⟩ "pathA" (by decide) (by decide) (by decide)
    (by decide)

/-- C6 (as stated, refuted): after a failed load of `start` the cache does have
an entry for the event (the invalid handle -1), and a later call, made when
the host's load would succeed, issues no load and no play. -/
theorem C6_counterexample_failed_load_cached :
    exLoadFail "pathA" < 0 ∧
    mapFind (exHash "start")
      (PlayTrainSound exHash exLoadFail [] exAudio (some (exVehicle false))
        "start").registeredSamples = some (-1) ∧
    (PlayTrainSound exHash exLoadOk []
      (PlayTrainSound exHash exLoadFail [] exAudio (some (exVehicle false)) "start")
      (some (exVehicle false)) "start").loadCalls = ["pathA"] ∧
    (PlayTrainSound exHash exLoadOk []
      (PlayTrainSound exHash exLoadFail [] exAudio (some (exVehicle false)) "start")
      (some (exVehicle false)) "start").playCalls = [] := by
  decide

/-- C6 (amended): for an event the resolved bank maps to `path`, starting from
a cache with no entry under the event's hash, a `PlayTrainSound` call whose
`LoadSample` fails issues that one load and no play, and stores the invalid
handle in the cache under the event's hash; every later `PlayTrainSound` call
for the same event, whatever `LoadSample` would answer then, changes nothing:
no load is retried and nothing is played. -/
theorem C6_failed_load_is_cached_no_retry (hash : String → Int) (load1 : String → Int)
    (t : ModelTable) (a : AudioState) (v : CVehicle) (soundName : String)
    (set : TrainSoundSet) (path : String) (later : List (String → Int))
    (hbank : mapFind (soundBankKey a.trainSounds (GetVehicleModelName t (some v)))
      a.trainSounds = some set)
    (hev : mapFind soundName set.namedSounds = some path)
    (hcache : mapFind (hash soundName) a.registeredSamples = none)
    (hfail : load1 path < 0) :
    (PlayTrainSound hash load1 t a (some v) soundName).loadCalls = a.loadCalls ++ [path] ∧
    (PlayTrainSound hash load1 t a (some v) soundName).playCalls = a.playCalls ∧
    mapFind (hash soundName) (PlayTrainSound hash load1 t a (some v) soundName).registeredSamples
      = some (load1 path) ∧
    later.foldl (fun acc load => PlayTrainSound hash load t acc (some v) soundName)
      (PlayTrainSound hash load1 t a (some v) soundName) =
      PlayTrainSound hash load1 t a (some v) soundName := by
  have hnot : ¬ (0 ≤ load1 path) := by omega
  have e1 : PlayTrainSound hash load1 t a (some v) soundName =
      { a with
        loadCalls := a.loadCalls ++ [path]
        registeredSamples := (hash soundName, load1 path) :: a.registeredSamples } := by
    rw [PlayTrainSound_bank hash load1 t a v soundName set hbank, hev]
    simp only
    rw [playResolved_uncached hash load1 a soundName path hcache, if_neg hnot]
  rw [e1]
  refine ⟨rfl, rfl, by simp [mapFind], ?_⟩
  induction later with
  | nil => rfl
  | cons load rest ih =>
    have e2 := PlayTrainSound_bank hash load t
      { a with
        loadCalls := a.loadCalls ++ [path]
        registeredSamples := (hash soundName, load1 path) :: a.registeredSamples }
      v soundName set hbank
    rw [hev] at e2
    simp only at e2
    rw [playResolved_cached hash load _ soundName path (load1 path) (by simp [mapFind]),
      if_neg hnot] at e2
    rw [List.foldl_cons, e2]
    exact ih

/-- C6 witness: the default bank with `start`, an empty cache, a failing load,
then one call with a failing and one with a succeeding load. -/
theorem C6_failed_load_is_cached_no_retry_witness :
    (PlayTrainSound exHash exLoadFail exModelsUnknown exAudio (some (exVehicle false))
      "start").loadCalls = exAudio.loadCalls ++ ["pathA"] ∧
    (PlayTrainSound exHash exLoadFail exModelsUnknown exAudio (some (exVehicle false))
      "start").playCalls = exAudio.playCalls ∧
    mapFind (exHash "start")
      (PlayTrainSound exHash exLoadFail exModelsUnknown exAudio (some (exVehicle false))
        "start").registeredSamples = some (exLoadFail "pathA") ∧
    [exLoadFail, exLoadOk].foldl
      (fun acc load => PlayTrainSound exHash load exModelsUnknown acc (some (exVehicle false))
        "start")
      (PlayTrainSound exHash exLoadFail exModelsUnknown exAudio (some (exVehicle false))
        "start") =
      PlayTrainSound exHash exLoadFail exModelsUnknown exAudio (some (exVehicle false)) "start" :=
  C6_failed_load_is_cached_no_retry exHash exLoadFail exModelsUnknown exAudio (exVehicle false)
    "start" ⟨"base/", [("start", "pathA")]⟩ "pathA" [exLoadFail, exLoadOk] (by decide)
    (by decide) (by decide) (by decide)

/-- C8 (as stated, refuted): the entity's model name is the empty string, the
bank map has a bank under that key mapping `start` to `pathB`, and yet
`PlayTrainSound` loads and plays `pathA` from the default bank. -/
theorem C8_counterexample_empty_model_name :
    GetVehicleModelName exModelsNoName (some (exVehicle false)) = "" ∧
    mapFind "" exAudioEmptyKey.trainSounds = some ⟨"other/", [("start", "pathB")]⟩ ∧
    (PlayTrainSound exHash exLoadOk exModelsNoName exAudioEmptyKey (some (exVehicle false))
      "start").loadCalls = ["pathA"] ∧
    (PlayTrainSound exHash exLoadOk exModelsNoName exAudioEmptyKey (some (exVehicle false))
      "start").playCalls = [7] := by
  decide

/-- C8 (amended): `PlayTrainSound` looks the event up in the bank keyed by the
entity's model name when that name is non-empty and the key is present, and
otherwise (empty name, or key absent) in the bank keyed by "default"; when the
bank it would use is absent the whole state is returned unchanged (no load, no
play); the bank map is never changed, and a null vehicle does nothing.  With
banks `{"default": {start: pathA}}` and model "unknown_model" the event
`start` loads and plays `pathA`. -/
theorem C8_bank_resolution (hash : String → Int) (loadSample : String → Int) (t : ModelTable)
    (a : AudioState) (v : CVehicle) (soundName : String) :
    (∀ set : TrainSoundSet, GetVehicleModelName t (some v) ≠ "" →
      mapFind (GetVehicleModelName t (some v)) a.trainSounds = some set →
      PlayTrainSound hash loadSample t a (some v) soundName =
        match mapFind soundName set.namedSounds with
        | none => a
        | some path => playResolved hash loadSample a soundName path) ∧
    (∀ set : TrainSoundSet,
      (GetVehicleModelName t (some v) = "" ∨
        mapFind (GetVehicleModelName t (some v)) a.trainSounds = none) →
      mapFind "default" a.trainSounds = some set →
      PlayTrainSound hash loadSample t a (some v) soundName =
        match mapFind soundName set.namedSounds with
        | none => a
        | some path => playResolved hash loadSample a soundName path) ∧
    ((GetVehicleModelName t (some v) = "" ∨
        mapFind (GetVehicleModelName t (some v)) a.trainSounds = none) →
      mapFind "default" a.trainSounds = none →
      PlayTrainSound hash loadSample t a (some v) soundName = a) ∧
    (PlayTrainSound hash loadSample t a (some v) soundName).trainSounds = a.trainSounds ∧
    PlayTrainSound hash loadSample t a none soundName = a ∧
    (GetVehicleModelName exModelsUnknown (some (exVehicle false)) = "unknown_model" ∧
      PlayTrainSound exHash exLoadOk exModelsUnknown exAudio (some (exVehicle false)) "start" =
        { exAudio with
          registeredSamples := [(exHash "start", 7)]
          loadCalls := ["pathA"]
          playCalls := [7] }) := by
  refine ⟨fun set hne hf => ?_, fun set hd hf => ?_, fun hd hf => ?_,
    PlayTrainSound_trainSounds hash loadSample t a (some v) soundName, rfl, by decide, by decide⟩
  · apply PlayTrainSound_bank
    rw [soundBankKey_model a.trainSounds _ set hne hf]
    exact hf
  · apply PlayTrainSound_bank
    rw [soundBankKey_default a.trainSounds _ hd]
    exact hf
  · apply PlayTrainSound_no_bank
    rw [soundBankKey_default a.trainSounds _ hd]
    exact hf

/-! ## Lemmas on the content catalog -/

theorem find_first_not_of_eq_none (s : List Char) :
    find_first_not_of s = none ↔ ∀ c, c ∈ s → isTrimChar c = true := by
  induction s with
  | nil => simp [find_first_not_of]
  | cons c cs ih =>
    by_cases hc : isTrimChar c = true
    · simp [find_first_not_of, hc, ih]
    · simp [find_first_not_of, hc]

theorem find_first_not_of_drop (s : List Char) (k : Nat) (h : find_first_not_of s = some k) :
    s.drop k = s.dropWhile isTrimChar := by
  induction s generalizing k with
  | nil => simp [find_first_not_of] at h
  | cons c cs ih =>
    by_cases hc : isTrimChar c = true
    · simp only [find_first_not_of, hc, if_true, Option.map_eq_some'] at h
      obtain ⟨k1, hk1, rfl⟩ := h
      rw [List.drop_succ_cons, List.dropWhile_cons_of_pos hc]
      exact ih k1 hk1
    · simp only [find_first_not_of, hc, Bool.false_eq_true, if_false, Option.some.injEq] at h
      subst h
      rw [List.drop_zero, List.dropWhile_cons_of_neg hc]

theorem find_last_not_of_eq_none (s : List Char) :
    find_last_not_of s = none ↔ ∀ c, c ∈ s → isTrimChar c = true := by
  induction s with
  | nil => simp [find_last_not_of]
  | cons c cs ih =>
    cases hl : find_last_not_of cs with
    | none =>
      have hall := ih.1 hl
      by_cases hc : isTrimChar c = true
      · simp only [find_last_not_of, hl, hc, if_true, true_iff]
        intro x hx
        rcases List.mem_cons.1 hx with rfl | hx
        · exact hc
        · exact hall x hx
      · simp [find_last_not_of, hl, hc]
    | some k =>
      have hne : ¬ ∀ c, c ∈ cs → isTrimChar c = true := fun hall => by
        rw [ih.2 hall] at hl
        exact absurd hl (by simp)
      simp only [find_last_not_of, hl]
      constructor
      · intro h
        exact absurd h (by simp)
      · intro hall
        exact absurd (fun x hx => hall x (List.mem_cons_of_mem c hx)) hne

theorem find_last_not_of_take (s : List Char) (e : Nat) (h : find_last_not_of s = some e) :
    s.take (e + 1) = (s.reverse.dropWhile isTrimChar).reverse := by
  induction s generalizing e with
  | nil => simp [find_last_not_of] at h
  | cons c cs ih =>
    cases hl : find_last_not_of cs with
    | none =>
      have hall := (find_last_not_of_eq_none cs).1 hl
      by_cases hc : isTrimChar c = true
      · simp [find_last_not_of, hl, hc] at h
      · simp only [find_last_not_of, hl, hc, Bool.false_eq_true, if_false,
          Option.some.injEq] at h
        subst h
        have hrev : ∀ x, x ∈ cs.reverse → isTrimChar x = true :=
          fun x hx => hall x (List.mem_reverse.1 hx)
        rw [List.reverse_cons, List.dropWhile_append_of_pos hrev,
          List.dropWhile_cons_of_neg hc]
        simp
    | some k =>
      simp only [find_last_not_of, hl, Option.some.injEq] at h
      subst h
      have hk := ih k hl
      have hne : cs.reverse.dropWhile isTrimChar ≠ [] := by
        intro hnil
        rw [hnil] at hk
        have : cs ≠ [] := by
          intro hcs
          rw [hcs] at hl
          simp [find_last_not_of] at hl
        cases cs with
        | nil => exact this rfl
        | cons x xs => simp at hk
      rw [List.reverse_cons, List.dropWhile_append, if_neg (by simpa using hne),
        List.reverse_append, List.take_succ_cons, hk]
      simp

theorem find_first_le_find_last (s : List Char) (a e : Nat)
    (h1 : find_first_not_of s = some a) (h2 : find_last_not_of s = some e) : a ≤ e := by
  induction s generalizing a e with
  | nil => simp [find_first_not_of] at h1
  | cons c cs ih =>
    by_cases hc : isTrimChar c = true
    · simp only [find_first_not_of, hc, if_true, Option.map_eq_some'] at h1
      obtain ⟨a1, ha1, rfl⟩ := h1
      cases hl : find_last_not_of cs with
      | none => simp [find_last_not_of, hl, hc] at h2
      | some k =>
        simp only [find_last_not_of, hl, Option.some.injEq] at h2
        subst h2
        exact Nat.succ_le_succ (ih a1 k ha1 hl)
    · simp only [find_first_not_of, hc, Bool.false_eq_true, if_false, Option.some.injEq] at h1
      omega

theorem find_first_not_of_take (s : List Char) (a n : Nat)
    (h : find_first_not_of s = some a) (han : a < n) :
    find_first_not_of (s.take n) = some a := by
  induction s generalizing a n with
  | nil => simp [find_first_not_of] at h
  | cons c cs ih =>
    cases n with
    | zero => omega
    | succ n =>
      rw [List.take_succ_cons]
      by_cases hc : isTrimChar c = true
      · simp only [find_first_not_of, hc, if_true, Option.map_eq_some'] at h ⊢
        obtain ⟨a1, ha1, rfl⟩ := h
        exact ⟨a1, ih a1 n ha1 (by omega), rfl⟩
      · simp only [find_first_not_of, hc, Bool.false_eq_true, if_false] at h ⊢
        exact h

/-- The index arithmetic of `Trim` removes exactly the surrounding whitespace. -/
theorem TrimChars_eq_specTrim (s : List Char) : TrimChars s = specTrim s := by
  unfold TrimChars specTrim
  cases h1 : find_first_not_of s with
  | none =>
    have hall := (find_first_not_of_eq_none s).1 h1
    have hrev : s.reverse.dropWhile isTrimChar = [] := by
      rw [List.dropWhile_eq_nil_iff]
      exact fun x hx => hall x (List.mem_reverse.1 hx)
    simp [hrev]
  | some a =>
    cases h2 : find_last_not_of s with
    | none =>
      have hall := (find_last_not_of_eq_none s).1 h2
      rw [(find_first_not_of_eq_none s).2 hall] at h1
      exact absurd h1 (by simp)
    | some e =>
      have hae := find_first_le_find_last s a e h1 h2
      have ht := find_last_not_of_take s e h2
      simp only
      rw [List.take_drop, show a + (e - a + 1) = e + 1 by omega, ht]
      rw [← ht]
      exact find_first_not_of_drop _ a (find_first_not_of_take s a (e + 1) h1 (by omega)) |>.trans
        (by rw [ht])

theorem Trim_mk (cs : List Char) : Trim (String.mk cs) = String.mk (specTrim cs) := by
  simp [Trim, TrimChars_eq_specTrim]

theorem specTrim_nil : specTrim [] = [] := by
  simp [specTrim]

/-- The fields of a text, read off its first comma. -/
theorem specFields_eq (stream : List Char) :
    specFields stream =
      if stream.dropWhile (fun c => c != ',') = [] then [stream.takeWhile (fun c => c != ',')]
      else stream.takeWhile (fun c => c != ',') ::
        specFields ((stream.dropWhile (fun c => c != ',')).drop 1) := by
  induction stream with
  | nil => simp [specFields]
  | cons c cs ih =>
    by_cases hc : c = ','
    · subst hc
      simp [specFields]
    · have e1 : (c :: cs).dropWhile (fun c => c != ',') = cs.dropWhile (fun c => c != ',') := by
        simp [List.dropWhile_cons, hc]
      have e2 : (c :: cs).takeWhile (fun c => c != ',') =
          c :: cs.takeWhile (fun c => c != ',') := by
        simp [List.takeWhile_cons, hc]
      rw [specFields, if_neg hc, e1, e2, ih]
      by_cases hd : cs.dropWhile (fun c => c != ',') = []
      · simp only [hd, if_true]
      · simp only [hd, if_false]

theorem readParts_nil (fuel : Nat) : readParts fuel [] = [] := by
  cases fuel <;> rfl

/-- With enough fuel the `getline` loop reads the line's fields: part `k` is
field `k` trimmed, and a part that was not read stands for an empty field. -/
theorem readParts_getD (fuel : Nat) (stream : List Char) (hf : stream.length < fuel) (k : Nat) :
    (readParts fuel stream).getD k "" = specField stream k := by
  induction fuel generalizing stream k with
  | zero => omega
  | succ fuel ih =>
    cases stream with
    | nil =>
      rw [readParts_nil]
      cases k <;> simp [specField, specFields, specTrim_nil]
    | cons c cs =>
      have hlen : ((c :: cs).dropWhile (fun c => c != ',')).length ≤ (c :: cs).length :=
        (List.dropWhile_sublist _).length_le
      simp only [readParts, getlineDelim]
      rw [specField, specFields_eq]
      by_cases hd : (c :: cs).dropWhile (fun c => c != ',') = []
      · rw [if_pos hd, hd, List.drop_nil, readParts_nil]
        cases k with
        | zero => simp [Trim_mk]
        | succ k => simp [specTrim_nil]
      · rw [if_neg hd]
        cases k with
        | zero => simp [Trim_mk]
        | succ k =>
          have hpos : 0 < ((c :: cs).dropWhile (fun c => c != ',')).length :=
            List.length_pos.2 hd
          have hrest : (((c :: cs).dropWhile (fun c => c != ',')).drop 1).length < fuel := by
            rw [List.length_drop]
            simp only [List.length_cons] at hf hlen
            omega
          rw [List.getD_cons_succ, List.getD_cons_succ]
          exact ih _ hrest k

theorem lineParts_getD (line : String) (k : Nat) :
    (lineParts line).getD k "" = specField line.data k :=
  readParts_getD _ _ (Nat.lt_succ_self _) k

theorem getD_guarded (parts : List String) (k : Nat) :
    (if parts.length > k then parts.getD k "" else "") = parts.getD k "" := by
  split
  · rfl
  · rw [List.getD_eq_default]
    omega

theorem skipLine_eq (line : String) : skipLine line = !specIsRecord line.data := by
  unfold skipLine specIsRecord
  cases line.data <;> simp

theorem lineParts_isEmpty (line : String) (h : skipLine line = false) :
    (lineParts line).isEmpty = false := by
  unfold skipLine at h
  unfold lineParts
  cases hd : line.data with
  | nil => rw [hd] at h; simp at h
  | cons c cs => simp [readParts, getlineDelim]

/-- One line of `MyVehicles.ini`: a record exactly when the trimmed line is
non-empty and not a comment, and then the record of its first three fields. -/
theorem vehicleOfLine_eq (line : String) :
    vehicleOfLine line =
      if specIsRecord (specTrim line.data) then
        some ⟨specField (specTrim line.data) 0, specField (specTrim line.data) 1,
          specField (specTrim line.data) 2, 0⟩
      else none := by
  have hdata : (Trim line).data = specTrim line.data := by
    simp [Trim, TrimChars_eq_specTrim]
  unfold vehicleOfLine
  simp only
  by_cases hs : skipLine (Trim line) = true
  · have : specIsRecord (specTrim line.data) = false := by
      rw [skipLine_eq, hdata] at hs
      simpa using hs
    rw [if_pos hs, this]
    simp
  · have hs1 : skipLine (Trim line) = false := by simpa using hs
    have : specIsRecord (specTrim line.data) = true := by
      rw [skipLine_eq, hdata] at hs1
      simpa using hs1
    rw [if_neg hs, lineParts_isEmpty _ hs1, this]
    simp only [Bool.false_eq_true, if_false, if_true, getD_guarded]
    simp only [lineParts_getD, hdata]

/-- One line of `MyPeds.ini`. -/
theorem pedOfLine_eq (line : String) :
    pedOfLine line =
      if specIsRecord (specTrim line.data) then
        some ⟨specField (specTrim line.data) 0, specField (specTrim line.data) 1,
          specField (specTrim line.data) 2, 0⟩
      else none := by
  have hdata : (Trim line).data = specTrim line.data := by
    simp [Trim, TrimChars_eq_specTrim]
  unfold pedOfLine
  simp only
  by_cases hs : skipLine (Trim line) = true
  · have : specIsRecord (specTrim line.data) = false := by
      rw [skipLine_eq, hdata] at hs
      simpa using hs
    rw [if_pos hs, this]
    simp
  · have hs1 : skipLine (Trim line) = false := by simpa using hs
    have : specIsRecord (specTrim line.data) = true := by
      rw [skipLine_eq, hdata] at hs1
      simpa using hs1
    rw [if_neg hs, this]
    simp only [if_true, getD_guarded]
    simp only [lineParts_getD, hdata]

theorem LoadVehiclesINILoop_eq (g : List VehicleDef) (lines : List String) :
    LoadVehiclesINILoop g lines = g ++ lines.filterMap vehicleOfLine := by
  induction lines generalizing g with
  | nil => simp [LoadVehiclesINILoop]
  | cons l ls ih =>
    rw [LoadVehiclesINILoop]
    cases h : vehicleOfLine l with
    | none => simp [ih, List.filterMap_cons, h]
    | some v => simp [ih, List.filterMap_cons, h]

theorem LoadPedsINILoop_eq (g : List PedDef) (lines : List String) :
    LoadPedsINILoop g lines = g ++ lines.filterMap pedOfLine := by
  induction lines generalizing g with
  | nil => simp [LoadPedsINILoop]
  | cons l ls ih =>
    rw [LoadPedsINILoop]
    cases h : pedOfLine l with
    | none => simp [ih, List.filterMap_cons, h]
    | some v => simp [ih, List.filterMap_cons, h]

theorem filterMap_vehicleOfLine (readFlags : String → Nat) (lines : List String) :
    lines.filterMap vehicleOfLine =
      (specParseVehicles readFlags lines).map (fun v => { v with flags := 0 }) := by
  induction lines with
  | nil => rfl
  | cons l ls ih =>
    rw [List.filterMap_cons, vehicleOfLine_eq, specParseVehicles, List.map_cons]
    by_cases hr : specIsRecord (specTrim l.data) = true
    · rw [if_pos hr, List.filter_cons_of_pos hr, List.map_cons, List.map_cons, ih]
      rfl
    · rw [if_neg hr, List.filter_cons_of_neg hr, ih]
      rfl

theorem filterMap_pedOfLine (readFlags : String → Nat) (lines : List String) :
    lines.filterMap pedOfLine =
      (specParsePeds readFlags lines).map (fun p => { p with flags := 0 }) := by
  induction lines with
  | nil => rfl
  | cons l ls ih =>
    rw [List.filterMap_cons, pedOfLine_eq, specParsePeds, List.map_cons]
    by_cases hr : specIsRecord (specTrim l.data) = true
    · rw [if_pos hr, List.filter_cons_of_pos hr, List.map_cons, List.map_cons, ih]
      rfl
    · rw [if_neg hr, List.filter_cons_of_neg hr, ih]
      rfl

theorem specFields_ne_nil (cs : List Char) : specFields cs ≠ [] := by
  cases cs with
  | nil => simp [specFields]
  | cons c cs =>
    rw [specFields]
    split
    · simp
    · split <;> simp

/-- Joining the fields with commas gives the text back, and no field holds a
comma: the fields are the comma-separated pieces of the text. -/
theorem specFields_spec (cs : List Char) :
    [','].intercalate (specFields cs) = cs ∧ ∀ f, f ∈ specFields cs → ',' ∉ f := by
  induction cs with
  | nil => simp [specFields, List.intercalate]
  | cons c cs ih =>
    obtain ⟨ih1, ih2⟩ := ih
    have hne := specFields_ne_nil cs
    cases hf : specFields cs with
    | nil => exact absurd hf hne
    | cons f fs =>
      rw [hf] at ih1 ih2
      by_cases hc : c = ','
      · subst hc
        rw [specFields, if_pos rfl, hf]
        constructor
        · have : [','].intercalate ([] :: f :: fs) = ',' :: [','].intercalate (f :: fs) := by
            simp [List.intercalate, List.intersperse]
          rw [this, ih1]
        · intro g hg
          rcases List.mem_cons.1 hg with rfl | hg
          · simp
          · exact ih2 g hg
      · rw [specFields, if_neg hc, hf]
        constructor
        · have : [','].intercalate ((c :: f) :: fs) = c :: [','].intercalate (f :: fs) := by
            cases fs <;> simp [List.intercalate, List.intersperse]
          rw [this, ih1]
        · intro g hg
          rcases List.mem_cons.1 hg with rfl | hg
          · intro hmem
            rcases List.mem_cons.1 hmem with h | h
            · exact hc h.symm
            · exact ih2 f (List.mem_cons_self f fs) h
          · exact ih2 g (List.mem_cons_of_mem f hg)

/-- The catalog parse apart from the flags: for every sequence of lines and
every reading of a flags field, the line loops of `LoadVehiclesINI` and
`LoadPedsINI` produce the catalog the specification describes with every
record's flags set to zero.  Going through the lines in input order, a line
gives exactly one record when, after trimming (space, tab, CR, LF), it is
non-empty and does not start with `;` or `#`, and no record otherwise; the
record's three text fields are the first three comma-separated fields of the
trimmed line, each trimmed, a field the line does not have being the empty
string.  The loaders replace their own catalog and leave the other catalog
and the host state as they were.  `Trim` removes exactly the surrounding
whitespace, and the fields are the pieces between the commas. -/
theorem catalog_parse_agrees_up_to_flags (readFlags : String → Nat) (lines : List String)
    (st : PluginState) :
    LoadVehiclesINILoop [] lines =
      (specParseVehicles readFlags lines).map (fun v => { v with flags := 0 }) ∧
    LoadPedsINILoop [] lines =
      (specParsePeds readFlags lines).map (fun p => { p with flags := 0 }) ∧
    (∀ (g : List VehicleDef) (line : String) (rest : List String),
      LoadVehiclesINILoop g (line :: rest) =
        if specIsRecord (specTrim line.data) then
          LoadVehiclesINILoop
            (g ++ [⟨specField (specTrim line.data) 0, specField (specTrim line.data) 1,
              specField (specTrim line.data) 2, 0⟩]) rest
        else LoadVehiclesINILoop g rest) ∧
    (∀ (g : List PedDef) (line : String) (rest : List String),
      LoadPedsINILoop g (line :: rest) =
        if specIsRecord (specTrim line.data) then
          LoadPedsINILoop
            (g ++ [⟨specField (specTrim line.data) 0, specField (specTrim line.data) 1,
              specField (specTrim line.data) 2, 0⟩]) rest
        else LoadPedsINILoop g rest) ∧
    ((LoadVehiclesINI lines st).g_vehicles = LoadVehiclesINILoop [] lines ∧
      (LoadVehiclesINI lines st).g_peds = st.g_peds ∧
      (LoadVehiclesINI lines st).host = st.host) ∧
    ((LoadPedsINI lines st).g_peds = LoadPedsINILoop [] lines ∧
      (LoadPedsINI lines st).g_vehicles = st.g_vehicles ∧
      (LoadPedsINI lines st).host = st.host) ∧
    (∀ s : String, (Trim s).data = specTrim s.data) ∧
    (∀ cs : List Char,
      [','].intercalate (specFields cs) = cs ∧ ∀ f, f ∈ specFields cs → ',' ∉ f) ∧
    LoadVehiclesINILoop [] exVehicleLines =
      [⟨"infernus", "HANDLING_SUPER", "sport", 0⟩, ⟨"tahoma", "HANDLING_SAL", "sedan", 0⟩,
        ⟨"bullet", "", "", 0⟩, ⟨"", "x", "", 0⟩] := by
  have hv : LoadVehiclesINILoop [] lines =
      (specParseVehicles readFlags lines).map (fun v => { v with flags := 0 }) := by
    rw [LoadVehiclesINILoop_eq, List.nil_append, filterMap_vehicleOfLine readFlags]
  have hp : LoadPedsINILoop [] lines =
      (specParsePeds readFlags lines).map (fun p => { p with flags := 0 }) := by
    rw [LoadPedsINILoop_eq, List.nil_append, filterMap_pedOfLine readFlags]
  refine ⟨hv, hp, ?_, ?_, ⟨rfl, rfl, rfl⟩, ⟨rfl, rfl, rfl⟩, ?_, specFields_spec, by decide⟩
  · intro g line rest
    rw [LoadVehiclesINILoop, vehicleOfLine_eq]
    by_cases hr : specIsRecord (specTrim line.data) = true
    · simp only [hr, if_true]
    · simp only [hr, Bool.false_eq_true, if_false]
  · intro g line rest
    rw [LoadPedsINILoop, pedOfLine_eq]
    by_cases hr : specIsRecord (specTrim line.data) = true
    · simp only [hr, if_true]
    · simp only [hr, Bool.false_eq_true, if_false]
  · intro s
    simp [Trim, TrimChars_eq_specTrim]

/-- C11 (code defect): the line `a,b,c,0x5` has a fourth field, which the
format comment of the default `MyVehicles.ini` names as the flags, and the
specification's parse gives the record the flags that field denotes; the
loops of `LoadVehiclesINI` and `LoadPedsINI` never read `parts[3]` and give
the record flags 0.  The three text fields agree. -/
theorem C11_flags_field_never_read :
    LoadVehiclesINILoop [] [exFlagsLine] = [⟨"a", "b", "c", 0⟩] ∧
    LoadPedsINILoop [] [exFlagsLine] = [⟨"a", "b", "c", 0⟩] ∧
    lineParts exFlagsLine = ["a", "b", "c", "0x5"] ∧
    (∀ readFlags : String → Nat,
      specParseVehicles readFlags [exFlagsLine] = [⟨"a", "b", "c", readFlags "0x5"⟩]) ∧
    (∀ readFlags : String → Nat,
      specParsePeds readFlags [exFlagsLine] = [⟨"a", "b", "c", readFlags "0x5"⟩]) := by
  refine ⟨by decide, by decide, by decide, fun readFlags => ?_, fun readFlags => ?_⟩
  · rfl
  · rfl

end TCHelper
